import Mathlib

/-!
Shallow embedding of the swarmkit network port allocator
(manager/allocator/network/port/port.go) together with proofs about its
specification.

Modelling conventions:
* Go pointers that may be nil are modelled as Option; all remaining values
  are plain Lean values.
* The Go maps used as sets (map[port]struct\x7b\x7d) are modelled as Finset.
* uint32 port numbers are modelled as Nat; the code only compares them
  against the bound 65535 and copies them around, so no overflow arises.
* Errors are returned as an Except value; the message payloads of the Go
  errors are dropped, only the error class is kept.
* A Go nil-pointer dereference is modelled by returning none from an
  Option-valued function.
-/

namespace SwarmkitPort

/-- The api.PortConfig_Protocol enumeration (TCP, UDP, SCTP). -/
inductive Protocol
  | tcp
  | udp
  | sctp
deriving DecidableEq, Repr

/-- The api.PortConfig_PublishMode enumeration (ingress, host). -/
inductive PublishMode
  | ingress
  | host
deriving DecidableEq, Repr

/-- The api.PortConfig record, with exactly the fields the allocator reads:
Name, Protocol, TargetPort, PublishedPort, PublishMode. -/
structure PortConfig where
  name : String
  protocol : Protocol
  targetPort : Nat
  publishedPort : Nat
  publishMode : PublishMode
deriving DecidableEq, Repr

/-- The api.EndpointSpec record: the ordered list of desired port configs. -/
structure EndpointSpec where
  ports : List PortConfig
deriving DecidableEq, Repr

/-- The api.Endpoint record: the realized ports plus the retained copy of the
spec that produced them.  The Spec field is a pointer in Go and may be nil,
hence an Option here. -/
structure Endpoint where
  spec : Option EndpointSpec
  ports : List PortConfig
deriving DecidableEq, Repr

/-- DynamicPortStart from port.go. -/
def DynamicPortStart : Nat := 30000

/-- DynamicPortEnd from port.go. -/
def DynamicPortEnd : Nat := 32767

/-- masterPortStart from port.go. -/
def masterPortStart : Nat := 1

/-- masterPortEnd from port.go. -/
def masterPortEnd : Nat := 65535

/-- The struct port of port.go: the (protocol, port number) pair used as a
set element.  In Go it is a comparable struct used as a map key. -/
structure port where
  protocol : Protocol
  port : Nat
deriving DecidableEq, Repr

/-- The error classes produced by Allocate (the errors package of the
allocator).  Message payloads are dropped. -/
inductive AllocError
  | invalidSpec
  | resourceInUse
  | resourceExhausted
deriving DecidableEq, Repr

/-- The struct proposal of port.go.  The field pa (the back pointer to the
allocator) is dropped; Commit instead takes the allocator state explicitly
and returns the new state.  The ports field is nil (none) for proposals
built by Deallocate, mirroring the Go code which leaves the slice nil
there. -/
structure proposal where
  ports : Option (List PortConfig)
  allocate : Finset port
  deallocate : Finset port
deriving DecidableEq

/-- proposal.Ports from port.go: returns the port list, an empty (non-nil)
slice when the field is nil. -/
def proposal.Ports (prop : proposal) : List PortConfig :=
  prop.ports.getD []

/-- proposal.IsNoop from port.go: the allocate and deallocate sets have the
same size and every key of allocate is found in deallocate. -/
def proposal.IsNoop (prop : proposal) : Bool :=
  prop.allocate.card == prop.deallocate.card && decide (prop.allocate ⊆ prop.deallocate)

/-- proposal.Commit from port.go, as a state transformer on the allocator
port set: short-circuit if the proposal is a noop, otherwise delete every
deallocate key and then add every allocate key. -/
def proposal.Commit (prop : proposal) (ports : Finset port) : Finset port :=
  if prop.IsNoop then ports
  else (ports \ prop.deallocate) ∪ prop.allocate

/-- PortsMostlyEqual from port.go.  The Go function takes two pointers and
first short-circuits on pointer equality (which also covers both nil); two
equal non-nil pointers agree on every field, so the function is extensionally
the following: both nil means true, one nil means false, otherwise compare
Name, TargetPort, Protocol and PublishMode, ignoring PublishedPort. -/
def PortsMostlyEqual : Option PortConfig → Option PortConfig → Bool
  | none, none => true
  | some a, some b =>
      a.name == b.name && a.targetPort == b.targetPort &&
        a.protocol == b.protocol && a.publishMode == b.publishMode
  | _, _ => false

/-- portsEqual from port.go: PortsMostlyEqual and equal PublishedPort.  It is
only ever called on non-nil pointers, so it is modelled on plain values. -/
def portsEqual (a b : PortConfig) : Bool :=
  PortsMostlyEqual (some a) (some b) && a.publishedPort == b.publishedPort

/-- The port key built from a PortConfig, written port\x7bp.Protocol,
p.PublishedPort\x7d at the Go call sites. -/
def portKeyOf (p : PortConfig) : port :=
  ⟨p.protocol, p.publishedPort⟩

/-- The release set built by Deallocate and by step 2 of Allocate: the key of
every realized port whose publish mode is not host. -/
def releaseKeys (ports : List PortConfig) : Finset port :=
  ((ports.filter fun p => p.publishMode != PublishMode.host).map portKeyOf).toFinset

/-- Deallocate from port.go: a proposal that only deallocates, holding every
non-host key of the endpoint's realized ports; its ports slice is left nil. -/
def Deallocate (endpoint : Endpoint) : proposal :=
  { ports := none
    allocate := ∅
    deallocate := releaseKeys endpoint.ports }

/-- The body of step 1 of Allocate for a single in-range spec descriptor:
dynamic-port recovery.  If the publish mode is host or the published port is
set by the user the descriptor is kept as is.  Otherwise, if the old spec on
the endpoint has a descriptor equal (portsEqual) to this one, the inner loop
of the Go code copies the PublishedPort of every realized port that is mostly
equal to the descriptor, so the last such realized port wins. -/
def recoverOne (endpoint : Endpoint) (s : PortConfig) : PortConfig :=
  if s.publishMode == PublishMode.host then s
  else if s.publishedPort != 0 then s
  else
    match endpoint.spec with
    | none => s
    | some oldSpec =>
        if oldSpec.ports.any fun old => portsEqual old s then
          match (endpoint.ports.filter fun p =>
              PortsMostlyEqual (some s) (some p)).getLast? with
          | some p => { s with publishedPort := p.publishedPort }
          | none => s
        else s

/-- Step 1 of Allocate: walk the spec descriptors in order, failing with
ErrInvalidSpec at the first descriptor whose published or target port exceeds
masterPortEnd, and otherwise producing the copied descriptor after
dynamic-port recovery. -/
def buildFinalPorts (endpoint : Endpoint) : List PortConfig → Except AllocError (List PortConfig)
  | [] => Except.ok []
  | s :: rest =>
      if s.publishedPort > masterPortEnd then Except.error AllocError.invalidSpec
      else if s.targetPort > masterPortEnd then Except.error AllocError.invalidSpec
      else do
        let rest' ← buildFinalPorts endpoint rest
        pure (recoverOne endpoint s :: rest')

/-- Step 3 of Allocate (first allocation pass, fixed ports): for each
descriptor with a non-zero published port and non-host mode, fail with
ErrResourceInUse if its key is reserved in the allocator and not being
released by this proposal, fail with ErrInvalidSpec if the key was already
claimed by an earlier descriptor of this same call, and otherwise add the key
to the allocate set. -/
def fixedPass (pa dealloc : Finset port) :
    List PortConfig → Finset port → Except AllocError (Finset port)
  | [], alloc => Except.ok alloc
  | p :: rest, alloc =>
      if p.publishedPort == 0 || p.publishMode == PublishMode.host then
        fixedPass pa dealloc rest alloc
      else
        if portKeyOf p ∈ pa ∧ portKeyOf p ∉ dealloc then
          Except.error AllocError.resourceInUse
        else if portKeyOf p ∈ alloc then
          Except.error AllocError.invalidSpec
        else
          fixedPass pa dealloc rest (insert (portKeyOf p) alloc)

/-- The ascending list of ports of the dynamic range, 30000 up to 32767. -/
def dynRange : List Nat :=
  List.range' DynamicPortStart (DynamicPortEnd + 1 - DynamicPortStart)

/-- The inner loop of step 4 of Allocate: scan the dynamic range in ascending
order for the first port number whose key is neither reserved in the
allocator nor already in this proposal's allocate set. -/
def findDynamicPort (pa alloc : Finset port) (proto : Protocol) : Option Nat :=
  dynRange.find? fun i =>
    !(decide ((⟨proto, i⟩ : port) ∈ pa)) && !(decide ((⟨proto, i⟩ : port) ∈ alloc))

/-- The fallback loop of step 4 of Allocate: look for a key of the proposal's
own deallocate set with the same protocol, a port number inside the dynamic
range, and not already claimed by this proposal.  The Go code ranges over the
deallocate map, whose iteration order is unspecified; this embedding
instantiates that iteration order as ascending port order, which ranges over
exactly the keys the Go loop can select. -/
def findFallback (dealloc alloc : Finset port) (proto : Protocol) : Option Nat :=
  dynRange.find? fun i =>
    decide ((⟨proto, i⟩ : port) ∈ dealloc) && !(decide ((⟨proto, i⟩ : port) ∈ alloc))

/-- Step 4 of Allocate (second allocation pass, dynamic ports): every
descriptor that still has published port 0 and is not host mode receives the
first free port of the dynamic range, or failing that a reusable key from the
proposal's own deallocate set, or else the whole call fails with
ErrResourceExhausted. -/
def dynamicPass (pa dealloc : Finset port) :
    List PortConfig → Finset port → Except AllocError (List PortConfig × Finset port)
  | [], alloc => Except.ok ([], alloc)
  | p :: rest, alloc =>
      if p.publishedPort != 0 || p.publishMode == PublishMode.host then do
        let (rest', alloc') ← dynamicPass pa dealloc rest alloc
        pure (p :: rest', alloc')
      else
        match findDynamicPort pa alloc p.protocol with
        | some i => do
            let (rest', alloc') ← dynamicPass pa dealloc rest (insert (⟨p.protocol, i⟩ : port) alloc)
            pure ({ p with publishedPort := i } :: rest', alloc')
        | none =>
            match findFallback dealloc alloc p.protocol with
            | some i => do
                let (rest', alloc') ← dynamicPass pa dealloc rest (insert (⟨p.protocol, i⟩ : port) alloc)
                pure ({ p with publishedPort := i } :: rest', alloc')
            | none => Except.error AllocError.resourceExhausted

/-- Allocate from port.go.  A nil spec is replaced by an empty one.  Step 1
validates and recovers; step 2 builds the release set from the endpoint's
realized ports; step 3 reserves the fixed ports; step 4 assigns the dynamic
ports; on success the final port list is attached to the proposal. -/
def Allocate (pa : Finset port) (endpoint : Endpoint) (spec? : Option EndpointSpec) :
    Except AllocError proposal :=
  let spec := spec?.getD ⟨[]⟩
  do
    let finalPorts ← buildFinalPorts endpoint spec.ports
    let dealloc := releaseKeys endpoint.ports
    let alloc ← fixedPass pa dealloc finalPorts ∅
    let (finalPorts', alloc') ← dynamicPass pa dealloc finalPorts alloc
    pure { ports := some finalPorts', allocate := alloc', deallocate := dealloc }

/-- Allocate as a state transformer on the allocator's port set.  The Go
method holds a pointer to the allocator but writes only to the proposal's
private maps (its only uses of pa.ports are the two membership reads in the
fixed and dynamic passes), so the state it leaves behind is the state it was
given, for every input and every outcome including the error returns. -/
def AllocateM (pa : Finset port) (endpoint : Endpoint) (spec? : Option EndpointSpec) :
    Except AllocError proposal × Finset port :=
  (Allocate pa endpoint spec?, pa)

/-- AlreadyAllocated from port.go.  The two arguments are pointers in Go and
may be nil.  The value none models a Go nil-pointer dereference panic: after
the four nil guards the Go code unconditionally reads endpoint.Spec.Ports and
spec.Ports, which panics when endpoint.Spec or spec is nil and the guards did
not catch that combination. -/
def AlreadyAllocated (endpoint? : Option Endpoint) (spec? : Option EndpointSpec) :
    Option Bool :=
  if endpoint?.isNone && spec?.isNone then some true
  else if endpoint?.isNone && spec?.isSome then some false
  else
    match endpoint? with
    | none => some false
    | some endpoint =>
        if endpoint.spec.isNone && spec?.isSome then some false
        else if spec?.isNone &&
            (match endpoint.spec with
             | some es => decide (0 < es.ports.length)
             | none => false) then some false
        else do
          let es ← endpoint.spec
          let sp ← spec?
          if es.ports.length != sp.ports.length then pure false
          else
            pure (es.ports.all fun p => sp.ports.any fun q => portsEqual p q)

/-! ### Shared helper lemmas -/

instance {ε α : Type _} [DecidableEq ε] [DecidableEq α] : DecidableEq (Except ε α) :=
  fun a b =>
    match a, b with
    | Except.ok x, Except.ok y =>
        if h : x = y then Decidable.isTrue (congrArg Except.ok h)
        else Decidable.isFalse fun hc => h (Except.ok.inj hc)
    | Except.error x, Except.error y =>
        if h : x = y then Decidable.isTrue (congrArg Except.error h)
        else Decidable.isFalse fun hc => h (Except.error.inj hc)
    | Except.ok _, Except.error _ => Decidable.isFalse fun hc => Except.noConfusion hc
    | Except.error _, Except.ok _ => Decidable.isFalse fun hc => Except.noConfusion hc

/-- Bind on an ok value reduces to the continuation. -/
theorem exceptBind_ok {ε α β : Type _} (a : α) (f : α → Except ε β) :
    (Except.ok a : Except ε α) >>= f = f a := rfl

/-- Bind on an error value propagates the error. -/
theorem exceptBind_error {ε α β : Type _} (e : ε) (f : α → Except ε β) :
    (Except.error e : Except ε α) >>= f = Except.error e := rfl

/-- Allocate, with its let bindings and do notation unfolded into explicit
binds. -/
theorem Allocate_eq (pa : Finset port) (endpoint : Endpoint)
    (spec? : Option EndpointSpec) :
    Allocate pa endpoint spec? =
      (buildFinalPorts endpoint ((spec?.getD ⟨[]⟩).ports) >>= fun finalPorts =>
        fixedPass pa (releaseKeys endpoint.ports) finalPorts ∅ >>= fun alloc =>
          dynamicPass pa (releaseKeys endpoint.ports) finalPorts alloc >>= fun ra =>
            pure { ports := some ra.1, allocate := ra.2,
                   deallocate := releaseKeys endpoint.ports }) := rfl

/-- portsEqual is reflexive on values. -/
theorem portsEqual_refl (p : PortConfig) : portsEqual p p = true := by
  simp [portsEqual, PortsMostlyEqual]

/-- Membership in the release set built from a realized port list. -/
theorem mem_releaseKeys (k : port) (l : List PortConfig) :
    k ∈ releaseKeys l ↔ ∃ p ∈ l, p.publishMode ≠ PublishMode.host ∧ k = portKeyOf p := by
  unfold releaseKeys
  simp only [List.mem_toFinset, List.mem_map, List.mem_filter, bne_iff_ne]
  constructor
  · rintro ⟨p, ⟨hp, hmode⟩, hk⟩
    exact ⟨p, hp, hmode, hk.symm⟩
  · rintro ⟨p, hp, hmode, hk⟩
    exact ⟨p, ⟨hp, hmode⟩, hk.symm⟩

/-- IsNoop holds exactly when the allocate and deallocate sets are equal. -/
theorem isNoop_eq_iff (prop : proposal) :
    prop.IsNoop = true ↔ prop.allocate = prop.deallocate := by
  unfold proposal.IsNoop
  simp only [Bool.and_eq_true, beq_iff_eq, decide_eq_true_eq]
  constructor
  · rintro ⟨hcard, hsub⟩
    exact Finset.eq_of_subset_of_card_le hsub (le_of_eq hcard.symm)
  · intro h
    exact ⟨by rw [h], by rw [h]⟩

/-! ### Claim C1 -/

/-- Claim C1: for every allocator state, endpoint, and spec, a call to
Allocate, whether it returns a proposal or any error, leaves the allocator's
set of reserved port keys exactly as it was before the call; the Go method
writes only to the proposal's private maps, so the state it passes on is the
state it was given. -/
theorem allocate_preserves_state (pa : Finset port) (endpoint : Endpoint)
    (spec? : Option EndpointSpec) :
    (AllocateM pa endpoint spec?).2 = pa := rfl

/-! ### Claim C6 -/

/-- A proposal that releases one key which the allocator does not hold. -/
def c6prop : proposal := ⟨none, ∅, {⟨Protocol.tcp, 100⟩}⟩

/-- Claim C6 counterexample: for the proposal that only releases the key
(tcp, 100) against the empty allocator state, IsNoop is false and yet Commit
leaves the state's membership unchanged, refuting the claimed equivalence of
IsNoop with commit-leaves-membership-unchanged. -/
theorem isNoop_commit_counterexample :
    c6prop.IsNoop = false ∧ c6prop.Commit ∅ = ∅ := by decide

/-- Claim C6 (amended): IsNoop is true iff the reserve and release sets are
equal as sets; IsNoop implies that Commit leaves the state unchanged; and the
converse equivalence holds provided every release-set key is actually
reserved in the state and every reserve-set key already present in the state
is also in the release set (as is the case for proposals computed against an
allocator whose state reflects the endpoint). -/
theorem isNoop_characterization :
    (∀ prop : proposal, prop.IsNoop = true ↔ prop.allocate = prop.deallocate)
    ∧ (∀ (prop : proposal) (pa : Finset port), prop.IsNoop = true → prop.Commit pa = pa)
    ∧ (∀ (prop : proposal) (pa : Finset port),
        prop.deallocate ⊆ pa →
        (∀ k ∈ prop.allocate, k ∈ pa → k ∈ prop.deallocate) →
        (prop.Commit pa = pa ↔ prop.IsNoop = true)) := by
  refine ⟨isNoop_eq_iff, ?_, ?_⟩
  · intro prop pa h
    unfold proposal.Commit
    simp [h]
  · intro prop pa hdsub halloc
    constructor
    · intro hcommit
      by_contra hno
      have hno' : prop.IsNoop = false := by
        cases h : prop.IsNoop
        · rfl
        · exact absurd h hno
      have hne : prop.allocate ≠ prop.deallocate := fun h =>
        hno ((isNoop_eq_iff prop).mpr h)
      have hcommit' : (pa \ prop.deallocate) ∪ prop.allocate = pa := by
        unfold proposal.Commit at hcommit
        simpa [hno'] using hcommit
      by_cases hsub : prop.deallocate ⊆ prop.allocate
      · have hss : prop.deallocate ⊂ prop.allocate :=
          ⟨hsub, fun h => hne (Finset.Subset.antisymm h hsub)⟩
        obtain ⟨k, hka, hkd⟩ := Finset.exists_of_ssubset hss
        have hkpa : k ∉ pa := fun h => hkd (halloc k hka h)
        have : k ∈ (pa \ prop.deallocate) ∪ prop.allocate :=
          Finset.mem_union_right _ hka
        rw [hcommit'] at this
        exact hkpa this
      · obtain ⟨k, hkd, hka⟩ := Finset.not_subset.mp hsub
        have hkpa : k ∈ pa := hdsub hkd
        have : k ∉ (pa \ prop.deallocate) ∪ prop.allocate := by
          simp only [Finset.mem_union, Finset.mem_sdiff, not_or, not_and, not_not]
          exact ⟨fun _ => hkd, hka⟩
        rw [hcommit'] at this
        exact this hkpa
    · intro h
      unfold proposal.Commit
      simp [h]

/-- A noop proposal over the key (tcp, 5). -/
def c6w : proposal := ⟨none, {⟨Protocol.tcp, 5⟩}, {⟨Protocol.tcp, 5⟩}⟩

/-- The allocator state holding exactly the key (tcp, 5). -/
def c6pa : Finset port := {⟨Protocol.tcp, 5⟩}

/-- Witness for the amended claim C6, at the noop proposal over (tcp, 5). -/
theorem isNoop_characterization_witness :
    (c6w.IsNoop = true ↔ c6w.allocate = c6w.deallocate)
    ∧ c6w.Commit c6pa = c6pa
    ∧ (c6w.Commit c6pa = c6pa ↔ c6w.IsNoop = true) :=
  ⟨isNoop_characterization.1 c6w,
   isNoop_characterization.2.1 c6w c6pa (by decide),
   isNoop_characterization.2.2 c6w c6pa (by decide) (by decide)⟩

/-! ### Claim C7 -/

/-- A descriptor used by the claim C7 counterexample. -/
def a7 : PortConfig := ⟨"", Protocol.tcp, 80, 1, PublishMode.ingress⟩

/-- A second, different descriptor used by the claim C7 counterexample. -/
def b7 : PortConfig := ⟨"", Protocol.tcp, 81, 2, PublishMode.ingress⟩

/-- Claim C7 counterexample: the stored spec list [a7, a7, b7] and the desired
list [a7, b7, b7] are not equal as multisets, yet AlreadyAllocated returns
true: the code only checks equal lengths plus membership of each stored
descriptor somewhere in the desired list. -/
theorem alreadyAllocated_multiset_counterexample :
    AlreadyAllocated (some ⟨some ⟨[a7, a7, b7]⟩, []⟩) (some ⟨[a7, b7, b7]⟩) = some true
    ∧ ¬ ([a7, a7, b7].Perm [a7, b7, b7]) := by
  constructor
  · decide
  · decide

/-- Claim C7 (amended): for a present endpoint whose stored spec is present
and a present desired spec, AlreadyAllocated returns true exactly when the
two port lists have equal length and every stored-spec descriptor has a
portsEqual match somewhere in the desired list; equality as multisets is
sufficient for this but, per the counterexample, not necessary. -/
theorem alreadyAllocated_characterization (ep : Endpoint) (es S : EndpointSpec)
    (h : ep.spec = some es) :
    (AlreadyAllocated (some ep) (some S) = some true ↔
      (es.ports.length = S.ports.length ∧
        ∀ p ∈ es.ports, ∃ q ∈ S.ports, portsEqual p q = true))
    ∧ (es.ports.Perm S.ports → AlreadyAllocated (some ep) (some S) = some true) := by
  have hmain : AlreadyAllocated (some ep) (some S) =
      (if es.ports.length != S.ports.length then some false
       else some (es.ports.all fun p => S.ports.any fun q => portsEqual p q)) := by
    simp [AlreadyAllocated, h]
  constructor
  · rw [hmain]
    by_cases hl : es.ports.length = S.ports.length
    · simp only [hl, bne_self_eq_false, if_neg Bool.false_ne_true, Option.some_inj]
      simp [List.all_eq_true, List.any_eq_true, hl]
    · have : (es.ports.length != S.ports.length) = true := by
        simpa [bne_iff_ne] using hl
      simp only [this, if_pos rfl]
      constructor
      · intro hfalse
        exact absurd (Option.some_inj.mp hfalse) (by simp)
      · rintro ⟨hlen, -⟩
        exact absurd hlen hl
  · intro hperm
    rw [hmain]
    have hl : es.ports.length = S.ports.length := hperm.length_eq
    simp only [hl, bne_self_eq_false, if_neg Bool.false_ne_true, Option.some_inj]
    simp only [List.all_eq_true, List.any_eq_true]
    intro p hp
    exact ⟨p, hperm.mem_iff.mp hp, portsEqual_refl p⟩

/-- The endpoint used by the witness for the amended claim C7. -/
def ep7w : Endpoint := ⟨some ⟨[a7, b7]⟩, []⟩

/-- Witness for the amended claim C7: an endpoint storing [a7, b7] compared
against the permuted desired list [b7, a7]. -/
theorem alreadyAllocated_characterization_witness :
    AlreadyAllocated (some ep7w) (some ⟨[b7, a7]⟩) = some true :=
  (alreadyAllocated_characterization ep7w ⟨[a7, b7]⟩ ⟨[b7, a7]⟩ rfl).2 (by decide)

/-! ### Claim C8 -/

/-- A descriptor used by the claim C8 theorem. -/
def c8p : PortConfig := ⟨"", Protocol.tcp, 1, 2, PublishMode.ingress⟩

/-- Claim C8 (code bug): the four documented nil guards behave as specified,
but the remaining combinations with a present endpoint and an absent desired
spec are not caught: the code then dereferences the nil spec pointer (or the
endpoint's nil stored spec) and panics, modelled here as none, instead of
returning a boolean. -/
theorem alreadyAllocated_nil_cases :
    AlreadyAllocated none none = some true
    ∧ AlreadyAllocated none (some ⟨[c8p]⟩) = some false
    ∧ AlreadyAllocated (some ⟨none, []⟩) (some ⟨[c8p]⟩) = some false
    ∧ AlreadyAllocated (some ⟨some ⟨[c8p]⟩, [c8p]⟩) none = some false
    ∧ AlreadyAllocated (some ⟨none, []⟩) none = none
    ∧ AlreadyAllocated (some ⟨some ⟨[]⟩, []⟩) none = none := by decide

/-! ### Claim C10 -/

/-- Claim C10: Allocate with an absent spec never fails, and the proposal it
returns is equivalent to the one Deallocate returns: an empty result-port
list, an empty reserve set, and a release set holding exactly the keys of the
endpoint's non-host realized ports. -/
theorem allocate_none_eq_deallocate (pa : Finset port) (endpoint : Endpoint) :
    ∃ prop : proposal,
      Allocate pa endpoint none = Except.ok prop
      ∧ prop.Ports = []
      ∧ prop.allocate = ∅
      ∧ prop.deallocate = (Deallocate endpoint).deallocate
      ∧ (Deallocate endpoint).Ports = []
      ∧ (Deallocate endpoint).allocate = ∅
      ∧ ∀ k : port, k ∈ prop.deallocate ↔
          ∃ p ∈ endpoint.ports, p.publishMode ≠ PublishMode.host ∧ k = portKeyOf p := by
  refine ⟨⟨some [], ∅, releaseKeys endpoint.ports⟩, rfl, rfl, rfl, rfl, rfl, rfl, ?_⟩
  intro k
  exact mem_releaseKeys k endpoint.ports

/-! ### Claim C3 -/

/-- Any accumulator set handed to the fixed pass is contained in the set the
pass returns on success. -/
theorem fixedPass_mono (pa dealloc : Finset port) :
    ∀ (l : List PortConfig) (alloc A : Finset port),
      fixedPass pa dealloc l alloc = Except.ok A → alloc ⊆ A := by
  intro l
  induction l with
  | nil =>
      intro alloc A h
      simp only [fixedPass, Except.ok.injEq] at h
      rw [← h]
  | cons p rest ih =>
      intro alloc A h
      simp only [fixedPass] at h
      by_cases hskip : (p.publishedPort == 0 || p.publishMode == PublishMode.host) = true
      · rw [if_pos hskip] at h
        exact ih alloc A h
      · rw [if_neg hskip] at h
        by_cases hinuse : portKeyOf p ∈ pa ∧ portKeyOf p ∉ dealloc
        · rw [if_pos hinuse] at h
          exact absurd h (by simp)
        · rw [if_neg hinuse] at h
          by_cases hdup : portKeyOf p ∈ alloc
          · rw [if_pos hdup] at h
            exact absurd h (by simp)
          · rw [if_neg hdup] at h
            exact (Finset.subset_insert _ _).trans (ih _ A h)

/-- Claim C3: when the fixed-port pass reaches a descriptor with a non-zero
published port and ingress mode, it fails with ResourceInUse when that
descriptor's key is reserved in the allocator state and not in this
proposal's release set; and when the key is in the release set and not
already claimed by this same call, the fixed request succeeds: the pass
continues with the key added to the reserve set, so any successful completion
of the pass contains the key. -/
theorem fixed_pass_rules (pa dealloc : Finset port) (p : PortConfig)
    (rest : List PortConfig) (alloc : Finset port)
    (hnz : p.publishedPort ≠ 0) (hmode : p.publishMode = PublishMode.ingress) :
    (portKeyOf p ∈ pa ∧ portKeyOf p ∉ dealloc →
      fixedPass pa dealloc (p :: rest) alloc = Except.error AllocError.resourceInUse)
    ∧ (portKeyOf p ∈ dealloc → portKeyOf p ∉ alloc →
      fixedPass pa dealloc (p :: rest) alloc
        = fixedPass pa dealloc rest (insert (portKeyOf p) alloc)
      ∧ ∀ A, fixedPass pa dealloc (p :: rest) alloc = Except.ok A → portKeyOf p ∈ A) := by
  have hskip : (p.publishedPort == 0 || p.publishMode == PublishMode.host) = false := by
    simp [hnz, hmode]
  constructor
  · intro hinuse
    simp only [fixedPass, hskip, Bool.false_eq_true, if_false]
    rw [if_pos hinuse]
  · intro hdealloc hdup
    have hinuse : ¬ (portKeyOf p ∈ pa ∧ portKeyOf p ∉ dealloc) := by
      rintro ⟨-, hnd⟩
      exact hnd hdealloc
    have hstep : fixedPass pa dealloc (p :: rest) alloc
        = fixedPass pa dealloc rest (insert (portKeyOf p) alloc) := by
      simp only [fixedPass, hskip, Bool.false_eq_true, if_false]
      rw [if_neg hinuse, if_neg hdup]
    refine ⟨hstep, fun A h => ?_⟩
    rw [hstep] at h
    exact fixedPass_mono pa dealloc rest _ A h (Finset.mem_insert_self _ _)

/-- The allocator state and sets used by the witness for claim C3. -/
def k3 : port := ⟨Protocol.tcp, 8080⟩

/-- The fixed-mode descriptor used by the witness for claim C3. -/
def p3 : PortConfig := ⟨"", Protocol.tcp, 80, 8080, PublishMode.ingress⟩

/-- Witness for claim C3, at the descriptor requesting the fixed port
(tcp, 8080): against a state holding the key and an empty release set the
pass reports ResourceInUse; with the key in the release set it succeeds and
reserves the key. -/
theorem fixed_pass_rules_witness :
    fixedPass {k3} ∅ [p3] ∅ = Except.error AllocError.resourceInUse
    ∧ fixedPass {k3} {k3} [p3] ∅ = fixedPass {k3} {k3} [] (insert k3 ∅)
    ∧ k3 ∈ insert k3 (∅ : Finset port) := by
  refine ⟨?_, ?_, ?_⟩
  · exact (fixed_pass_rules {k3} ∅ p3 [] ∅ (by decide) (by decide)).1 (by decide)
  · exact ((fixed_pass_rules {k3} {k3} p3 [] ∅ (by decide) (by decide)).2
      (by decide) (by decide)).1
  · exact ((fixed_pass_rules {k3} {k3} p3 [] ∅ (by decide) (by decide)).2
      (by decide) (by decide)).2 (insert k3 ∅) rfl

/-! ### Claim C4 -/

/-- The current dynamic spec descriptor of the claim C4 counterexample. -/
def s4 : PortConfig := ⟨"web", Protocol.tcp, 80, 0, PublishMode.ingress⟩

/-- The previous spec descriptor of the claim C4 counterexample: identical to
s4 except for its user-fixed published port 8080. -/
def old4 : PortConfig := ⟨"web", Protocol.tcp, 80, 8080, PublishMode.ingress⟩

/-- The endpoint of the claim C4 counterexample: its previous spec and its
realized ports both hold old4. -/
def ep4 : Endpoint := ⟨some ⟨[old4]⟩, [old4]⟩

/-- Claim C4 counterexample: the previous spec holds a descriptor mostly
equal to the current dynamic descriptor and the realized ports hold a mostly
equal descriptor with published port 8080, so per the claim 8080 should be
copied into the result; but the code's old-spec search uses portsEqual (full
equality including the published port), finds no match, and the result keeps
published port 0. -/
theorem recovery_counterexample :
    PortsMostlyEqual (some old4) (some s4) = true
    ∧ old4.publishedPort = 8080
    ∧ s4.publishedPort = 0
    ∧ buildFinalPorts ep4 [s4] = Except.ok [s4] := by decide

/-- The last element of a filtered list sits at a position of the original
list after which no element satisfies the predicate. -/
theorem getLast?_filter_spec {α : Type _} (f : α → Bool) :
    ∀ (l : List α) (p : α), (l.filter f).getLast? = some p →
      ∃ j, ∃ hj : j < l.length, l.get ⟨j, hj⟩ = p ∧ f p = true ∧
        ∀ k, ∀ hk : k < l.length, j < k → f (l.get ⟨k, hk⟩) = false := by
  intro l
  induction l with
  | nil =>
      intro p h
      exact absurd h (by simp)
  | cons a l ih =>
      intro p h
      rw [List.filter_cons] at h
      by_cases hfa : f a = true
      · rw [if_pos hfa] at h
        cases hfl : l.filter f with
        | nil =>
            rw [hfl] at h
            have hp : a = p := by simpa using h
            refine ⟨0, by simp, hp, hp ▸ hfa, ?_⟩
            intro k hk hk0
            cases k with
            | zero => omega
            | succ k' =>
                have hk' : k' < l.length := Nat.lt_of_succ_lt_succ hk
                have hnone := (List.filter_eq_nil_iff.mp hfl)
                  (l.get ⟨k', hk'⟩) (List.get_mem _ _ _)
                show f (l.get ⟨k', hk'⟩) = false
                cases hfx : f (l.get ⟨k', hk'⟩)
                · rfl
                · exact absurd hfx hnone
        | cons b m =>
            rw [hfl, List.getLast?_cons_cons] at h
            have h' : (l.filter f).getLast? = some p := by
              rw [hfl]
              exact h
            obtain ⟨j, hj, hget, hfp, hlater⟩ := ih p h'
            refine ⟨j + 1, Nat.succ_lt_succ hj, hget, hfp, ?_⟩
            intro k hk hjk
            cases k with
            | zero => omega
            | succ k' =>
                have hk' : k' < l.length := Nat.lt_of_succ_lt_succ hk
                show f (l.get ⟨k', hk'⟩) = false
                exact hlater k' hk' (by omega)
      · rw [if_neg hfa] at h
        obtain ⟨j, hj, hget, hfp, hlater⟩ := ih p h
        refine ⟨j + 1, Nat.succ_lt_succ hj, hget, hfp, ?_⟩
        intro k hk hjk
        cases k with
        | zero => omega
        | succ k' =>
            have hk' : k' < l.length := Nat.lt_of_succ_lt_succ hk
            show f (l.get ⟨k', hk'⟩) = false
            exact hlater k' hk' (by omega)

/-- Claim C4 (amended): step 1 rewrites each in-range descriptor by
recoverOne, and for an ingress descriptor with published port 0 the recovery
searches the endpoint's previous spec for a descriptor fully equal to it
under portsEqual (which, the current published port being 0, also requires
the old descriptor's published port to be 0) rather than merely mostly
equal; on a hit, the published port of the last mostly-equal realized
descriptor is copied — the matched realized position is mostly equal and no
later realized position is — and with no such full-equality hit, or no
mostly-equal realized descriptor, the published port remains 0. -/
theorem recovery_rule :
    (∀ (ep : Endpoint) (l l' : List PortConfig),
        buildFinalPorts ep l = Except.ok l' →
        ∀ i (hi : i < l.length), ∃ hi' : i < l'.length,
          l'.get ⟨i, hi'⟩ = recoverOne ep (l.get ⟨i, hi⟩))
    ∧ (∀ (ep : Endpoint) (s : PortConfig) (os : EndpointSpec),
        s.publishMode = PublishMode.ingress → s.publishedPort = 0 →
        ep.spec = some os →
        ((∃ old ∈ os.ports, portsEqual old s = true) →
          ((∃ p ∈ ep.ports, PortsMostlyEqual (some s) (some p) = true) →
            ∃ j, ∃ hj : j < ep.ports.length,
              PortsMostlyEqual (some s) (some (ep.ports.get ⟨j, hj⟩)) = true ∧
              recoverOne ep s
                = { s with publishedPort := (ep.ports.get ⟨j, hj⟩).publishedPort } ∧
              ∀ k, ∀ hk : k < ep.ports.length, j < k →
                PortsMostlyEqual (some s) (some (ep.ports.get ⟨k, hk⟩)) = false)
          ∧ ((¬ ∃ p ∈ ep.ports, PortsMostlyEqual (some s) (some p) = true) →
            recoverOne ep s = s))
        ∧ ((¬ ∃ old ∈ os.ports, portsEqual old s = true) → recoverOne ep s = s)) := by
  constructor
  · intro ep l
    induction l with
    | nil =>
        intro l' h i hi
        exact absurd hi (by simp)
    | cons s rest ih =>
        intro l' h i hi
        simp only [buildFinalPorts] at h
        by_cases h1 : s.publishedPort > masterPortEnd
        · rw [if_pos h1] at h
          exact absurd h (by simp)
        · rw [if_neg h1] at h
          by_cases h2 : s.targetPort > masterPortEnd
          · rw [if_pos h2] at h
            exact absurd h (by simp)
          · rw [if_neg h2] at h
            cases hrest : buildFinalPorts ep rest with
            | error e =>
                rw [hrest, exceptBind_error] at h
                exact absurd h (by simp)
            | ok rest' =>
                rw [hrest, exceptBind_ok] at h
                simp only [pure, Except.pure, Except.ok.injEq] at h
                subst h
                cases i with
                | zero => exact ⟨by simp, rfl⟩
                | succ n =>
                    have hn : n < rest.length := Nat.lt_of_succ_lt_succ hi
                    obtain ⟨hn', heq⟩ := ih rest' hrest n hn
                    exact ⟨Nat.succ_lt_succ hn', heq⟩
  · intro ep s os hmode hzero hspec
    have hhost : (s.publishMode == PublishMode.host) = false := by simp [hmode]
    have hnz : (s.publishedPort != 0) = false := by simp [hzero]
    have hrec : recoverOne ep s =
        (if os.ports.any fun old => portsEqual old s then
          match (ep.ports.filter fun p =>
              PortsMostlyEqual (some s) (some p)).getLast? with
          | some p => { s with publishedPort := p.publishedPort }
          | none => s
        else s) := by
      unfold recoverOne
      rw [hhost, hnz]
      simp only [Bool.false_eq_true, if_false, hspec]
    constructor
    · intro hold
      have hany : (os.ports.any fun old => portsEqual old s) = true := by
        simp only [List.any_eq_true]
        obtain ⟨old, hmem, holdeq⟩ := hold
        exact ⟨old, hmem, holdeq⟩
      rw [hany, if_pos rfl] at hrec
      constructor
      · intro hreal
        cases hlast : (ep.ports.filter fun p =>
            PortsMostlyEqual (some s) (some p)).getLast? with
        | none =>
            obtain ⟨p, hp, hpe⟩ := hreal
            have hfil : p ∈ ep.ports.filter fun p =>
                PortsMostlyEqual (some s) (some p) :=
              List.mem_filter.mpr ⟨hp, hpe⟩
            have : (ep.ports.filter fun p =>
                PortsMostlyEqual (some s) (some p)) ≠ [] := by
              intro hnil
              rw [hnil] at hfil
              exact absurd hfil (by simp)
            rw [← List.getLast?_isSome] at this
            rw [hlast] at this
            exact absurd this (by simp)
        | some p =>
            rw [hlast] at hrec
            obtain ⟨j, hj, hget, hfp, hlater⟩ :=
              getLast?_filter_spec _ ep.ports p hlast
            refine ⟨j, hj, ?_, ?_, ?_⟩
            · rw [hget]
              exact hfp
            · rw [hget]
              exact hrec
            · exact hlater
      · intro hnone
        cases hlast : (ep.ports.filter fun p =>
            PortsMostlyEqual (some s) (some p)).getLast? with
        | none =>
            rw [hlast] at hrec
            exact hrec
        | some p =>
            have hp : p ∈ ep.ports.filter fun p =>
                PortsMostlyEqual (some s) (some p) :=
              List.mem_of_mem_getLast? hlast
            obtain ⟨hpmem, hpe⟩ := List.mem_filter.mp hp
            exact absurd ⟨p, hpmem, hpe⟩ hnone
    · intro hnold
      have hany : (os.ports.any fun old => portsEqual old s) = false := by
        simp only [List.any_eq_false]
        intro old hmem holdeq
        exact hnold ⟨old, hmem, holdeq⟩
      rw [hany] at hrec
      simpa using hrec

/-- The first realized descriptor with a dynamically assigned port used by
the witness for the amended claim C4. -/
def rp4 : PortConfig := ⟨"web", Protocol.tcp, 80, 30500, PublishMode.ingress⟩

/-- The second, later realized descriptor used by the witness for the
amended claim C4: mostly equal to rp4 but with published port 30600; being
last, its port is the one the recovery copies. -/
def rp4b : PortConfig := ⟨"web", Protocol.tcp, 80, 30600, PublishMode.ingress⟩

/-- The endpoint used by the witness for the amended claim C4: its previous
spec holds the dynamic descriptor s4 itself and its realized ports hold two
mostly-equal descriptors, rp4 then rp4b. -/
def ep4w : Endpoint := ⟨some ⟨[s4]⟩, [rp4, rp4b]⟩

/-- Witness for the amended claim C4: with the previous spec holding s4 (a
full-equality match) and two mostly-equal realized ports 30500 and 30600,
the recovery copies the last one, 30600, into the result. -/
theorem recovery_rule_witness :
    (∃ hi' : 0 < ([{ s4 with publishedPort := 30600 }] : List PortConfig).length,
      ([{ s4 with publishedPort := 30600 }] : List PortConfig).get ⟨0, hi'⟩
        = recoverOne ep4w ([s4].get ⟨0, by decide⟩))
    ∧ (∃ j, ∃ hj : j < ep4w.ports.length,
        PortsMostlyEqual (some s4) (some (ep4w.ports.get ⟨j, hj⟩)) = true ∧
        recoverOne ep4w s4
          = { s4 with publishedPort := (ep4w.ports.get ⟨j, hj⟩).publishedPort } ∧
        ∀ k, ∀ hk : k < ep4w.ports.length, j < k →
          PortsMostlyEqual (some s4) (some (ep4w.ports.get ⟨k, hk⟩)) = false)
    ∧ recoverOne ep4w s4 = { s4 with publishedPort := 30600 } := by
  refine ⟨?_, ?_, ?_⟩
  · exact recovery_rule.1 ep4w [s4] [{ s4 with publishedPort := 30600 }]
      (by decide) 0 (by decide)
  · exact ((recovery_rule.2 ep4w s4 ⟨[s4]⟩ rfl rfl rfl).1
      ⟨s4, by decide, by decide⟩).1 ⟨rp4, by decide, by decide⟩
  · decide

/-! ### Claim C2 -/

/-- A successful find? over an ascending range returns its first hit: the
predicate is false at every earlier position. -/
theorem find?_range'_isFirst (f : Nat → Bool) :
    ∀ (n s i : Nat), (List.range' s n).find? f = some i →
      ∀ j, s ≤ j → j < i → f j = false := by
  intro n
  induction n with
  | zero =>
      intro s i h
      rw [List.range'_zero] at h
      exact absurd h (by simp)
  | succ n ih =>
      intro s i h j hsj hji
      rw [List.range'_succ s n 1] at h
      cases hf : f s with
      | true =>
          rw [List.find?_cons_of_pos _ hf] at h
          have : s = i := by simpa using h
          omega
      | false =>
          rw [List.find?_cons_of_neg _ (by simp [hf])] at h
          rcases Nat.eq_or_lt_of_le hsj with heq | hlt
          · rw [← heq]
            exact hf
          · exact ih (s + 1) i h j hlt hji

/-- The dynamic range list contains exactly the numbers from DynamicPortStart
to DynamicPortEnd. -/
theorem mem_dynRange (j : Nat) :
    j ∈ dynRange ↔ DynamicPortStart ≤ j ∧ j ≤ DynamicPortEnd := by
  unfold dynRange
  rw [List.mem_range'_1]
  unfold DynamicPortStart DynamicPortEnd
  omega

/-- On success the dynamic pass keeps the list length and fills every
descriptor that was awaiting a dynamic port with a published port inside the
dynamic range. -/
theorem dynamicPass_ok_range (pa dealloc : Finset port) :
    ∀ (l : List PortConfig) (alloc : Finset port) (l' : List PortConfig)
      (a' : Finset port),
      dynamicPass pa dealloc l alloc = Except.ok (l', a') →
      l'.length = l.length ∧
      ∀ i (hi : i < l.length) (hi' : i < l'.length),
        (l.get ⟨i, hi⟩).publishedPort = 0 →
        (l.get ⟨i, hi⟩).publishMode = PublishMode.ingress →
        DynamicPortStart ≤ (l'.get ⟨i, hi'⟩).publishedPort ∧
          (l'.get ⟨i, hi'⟩).publishedPort ≤ DynamicPortEnd := by
  intro l
  induction l with
  | nil =>
      intro alloc l' a' h
      simp only [dynamicPass, Except.ok.injEq, Prod.mk.injEq] at h
      refine ⟨by rw [← h.1], ?_⟩
      intro i hi
      exact absurd hi (by simp)
  | cons p rest ih =>
      intro alloc l' a' h
      simp only [dynamicPass] at h
      by_cases hskip : (p.publishedPort != 0 || p.publishMode == PublishMode.host) = true
      · rw [if_pos hskip] at h
        cases hrest : dynamicPass pa dealloc rest alloc with
        | error e =>
            rw [hrest, exceptBind_error] at h
            exact absurd h (by simp)
        | ok ra =>
            rw [hrest, exceptBind_ok] at h
            simp only [pure, Except.pure, Except.ok.injEq, Prod.mk.injEq] at h
            obtain ⟨hl', -⟩ := h
            obtain ⟨hlen, hrange⟩ := ih alloc ra.1 ra.2 (by rw [hrest])
            rw [← hl']
            refine ⟨by simp [hlen], ?_⟩
            intro i hi hi' hz hm
            cases i with
            | zero =>
                exfalso
                simp only [List.get] at hz hm
                simp [hz, hm] at hskip
            | succ n =>
                have hn : n < rest.length := Nat.lt_of_succ_lt_succ hi
                have hn' : n < ra.1.length := by omega
                exact hrange n hn hn' hz hm
      · rw [if_neg hskip] at h
        have hcont : ∀ (k : Nat) (alloc₂ : Finset port),
            DynamicPortStart ≤ k → k ≤ DynamicPortEnd →
            (dynamicPass pa dealloc rest alloc₂ >>= fun ra =>
              pure ({ p with publishedPort := k } :: ra.1, ra.2)) = Except.ok (l', a') →
            l'.length = (p :: rest).length ∧
            ∀ i (hi : i < (p :: rest).length) (hi' : i < l'.length),
              ((p :: rest).get ⟨i, hi⟩).publishedPort = 0 →
              ((p :: rest).get ⟨i, hi⟩).publishMode = PublishMode.ingress →
              DynamicPortStart ≤ (l'.get ⟨i, hi'⟩).publishedPort ∧
                (l'.get ⟨i, hi'⟩).publishedPort ≤ DynamicPortEnd := by
          intro k alloc₂ hk1 hk2 hbind
          cases hrest : dynamicPass pa dealloc rest alloc₂ with
          | error e =>
              rw [hrest, exceptBind_error] at hbind
              exact absurd hbind (by simp)
          | ok ra =>
              rw [hrest, exceptBind_ok] at hbind
              simp only [pure, Except.pure, Except.ok.injEq, Prod.mk.injEq] at hbind
              obtain ⟨hl', -⟩ := hbind
              obtain ⟨hlen, hrange⟩ := ih alloc₂ ra.1 ra.2 (by rw [hrest])
              rw [← hl']
              refine ⟨by simp [hlen], ?_⟩
              intro i hi hi' hz hm
              cases i with
              | zero => exact ⟨hk1, hk2⟩
              | succ n =>
                  have hn : n < rest.length := Nat.lt_of_succ_lt_succ hi
                  have hn' : n < ra.1.length := by omega
                  exact hrange n hn hn' hz hm
        cases hfind : findDynamicPort pa alloc p.protocol with
        | some i =>
            rw [hfind] at h
            have himem : i ∈ dynRange :=
              List.mem_of_find?_eq_some hfind
            rw [mem_dynRange] at himem
            exact hcont i _ himem.1 himem.2 h
        | none =>
            rw [hfind] at h
            cases hfall : findFallback dealloc alloc p.protocol with
            | some i =>
                rw [hfall] at h
                have himem : i ∈ dynRange :=
                  List.mem_of_find?_eq_some hfall
                rw [mem_dynRange] at himem
                exact hcont i _ himem.1 himem.2 h
            | none =>
                rw [hfall] at h
                exact absurd h (by simp)

/-- Claim C2: the dynamic pass scans the range 30000 to 32767 in ascending
order and assigns the first port whose key is in neither the allocator state
nor the proposal's reserve set, adding it to the reserve set; when the whole
range is occupied it reuses a key of the proposal's own release set with the
same protocol, a port inside the dynamic range and not already reserved by
this proposal; when neither exists it fails with ResourceExhausted; and on
success every dynamically assigned published port lies in the range. -/
theorem dynamic_pass_rules :
    (∀ (pa alloc : Finset port) (proto : Protocol) (i : Nat),
        findDynamicPort pa alloc proto = some i →
        (DynamicPortStart ≤ i ∧ i ≤ DynamicPortEnd)
        ∧ (⟨proto, i⟩ : port) ∉ pa ∧ (⟨proto, i⟩ : port) ∉ alloc
        ∧ ∀ j, DynamicPortStart ≤ j → j < i →
            ((⟨proto, j⟩ : port) ∈ pa ∨ (⟨proto, j⟩ : port) ∈ alloc))
    ∧ (∀ (pa alloc : Finset port) (proto : Protocol),
        findDynamicPort pa alloc proto = none →
        ∀ j, DynamicPortStart ≤ j → j ≤ DynamicPortEnd →
          ((⟨proto, j⟩ : port) ∈ pa ∨ (⟨proto, j⟩ : port) ∈ alloc))
    ∧ (∀ (dealloc alloc : Finset port) (proto : Protocol) (i : Nat),
        findFallback dealloc alloc proto = some i →
        (DynamicPortStart ≤ i ∧ i ≤ DynamicPortEnd)
        ∧ (⟨proto, i⟩ : port) ∈ dealloc ∧ (⟨proto, i⟩ : port) ∉ alloc)
    ∧ (∀ (pa dealloc : Finset port) (p : PortConfig) (rest : List PortConfig)
        (alloc : Finset port),
        p.publishedPort = 0 → p.publishMode = PublishMode.ingress →
        (∀ i, findDynamicPort pa alloc p.protocol = some i →
          dynamicPass pa dealloc (p :: rest) alloc
            = (dynamicPass pa dealloc rest (insert (⟨p.protocol, i⟩ : port) alloc) >>=
                fun ra => pure ({ p with publishedPort := i } :: ra.1, ra.2)))
        ∧ (findDynamicPort pa alloc p.protocol = none →
          ∀ i, findFallback dealloc alloc p.protocol = some i →
          dynamicPass pa dealloc (p :: rest) alloc
            = (dynamicPass pa dealloc rest (insert (⟨p.protocol, i⟩ : port) alloc) >>=
                fun ra => pure ({ p with publishedPort := i } :: ra.1, ra.2)))
        ∧ (findDynamicPort pa alloc p.protocol = none →
          findFallback dealloc alloc p.protocol = none →
          dynamicPass pa dealloc (p :: rest) alloc
            = Except.error AllocError.resourceExhausted))
    ∧ (∀ (pa : Finset port) (endpoint : Endpoint) (spec? : Option EndpointSpec)
        (prop : proposal) (fps : List PortConfig),
        Allocate pa endpoint spec? = Except.ok prop →
        buildFinalPorts endpoint ((spec?.getD ⟨[]⟩).ports) = Except.ok fps →
        ∀ i (hi : i < fps.length) (hi' : i < prop.Ports.length),
          (fps.get ⟨i, hi⟩).publishedPort = 0 →
          (fps.get ⟨i, hi⟩).publishMode = PublishMode.ingress →
          DynamicPortStart ≤ (prop.Ports.get ⟨i, hi'⟩).publishedPort ∧
            (prop.Ports.get ⟨i, hi'⟩).publishedPort ≤ DynamicPortEnd) := by
  refine ⟨?_, ?_, ?_, ?_, ?_⟩
  · intro pa alloc proto i h
    have hi : i ∈ dynRange := List.mem_of_find?_eq_some h
    rw [mem_dynRange] at hi
    have hpred := List.find?_some h
    simp only [Bool.and_eq_true, Bool.not_eq_true', decide_eq_false_iff_not] at hpred
    refine ⟨hi, hpred.1, hpred.2, ?_⟩
    intro j hj1 hj2
    have := find?_range'_isFirst _ _ _ _ h j hj1 hj2
    simp only [Bool.and_eq_false_iff, Bool.not_eq_false', decide_eq_true_eq] at this
    rcases this with h1 | h2
    · exact Or.inl h1
    · exact Or.inr h2
  · intro pa alloc proto h j hj1 hj2
    have hmem : j ∈ dynRange := (mem_dynRange j).mpr ⟨hj1, hj2⟩
    have := List.find?_eq_none.mp h j hmem
    simp only [Bool.and_eq_true, Bool.not_eq_true', decide_eq_false_iff_not, not_and] at this
    by_cases hpa : (⟨proto, j⟩ : port) ∈ pa
    · exact Or.inl hpa
    · exact Or.inr (by simpa using this hpa)
  · intro dealloc alloc proto i h
    have hi : i ∈ dynRange := List.mem_of_find?_eq_some h
    rw [mem_dynRange] at hi
    have hpred := List.find?_some h
    simp only [Bool.and_eq_true, Bool.not_eq_true', decide_eq_true_eq,
      decide_eq_false_iff_not] at hpred
    exact ⟨hi, hpred.1, hpred.2⟩
  · intro pa dealloc p rest alloc hz hm
    have hskip : (p.publishedPort != 0 || p.publishMode == PublishMode.host) = false := by
      simp [hz, hm]
    refine ⟨?_, ?_, ?_⟩
    · intro i hfind
      simp only [dynamicPass, hskip, Bool.false_eq_true, if_false, hfind]
    · intro hfind i hfall
      simp only [dynamicPass, hskip, Bool.false_eq_true, if_false, hfind, hfall]
    · intro hfind hfall
      simp only [dynamicPass, hskip, Bool.false_eq_true, if_false, hfind, hfall]
  · intro pa endpoint spec? prop fps hall hbuild
    rw [Allocate_eq, hbuild, exceptBind_ok] at hall
    cases hfix : fixedPass pa (releaseKeys endpoint.ports) fps ∅ with
    | error e =>
        rw [hfix, exceptBind_error] at hall
        exact absurd hall (by simp)
    | ok alloc =>
        rw [hfix, exceptBind_ok] at hall
        cases hdyn : dynamicPass pa (releaseKeys endpoint.ports) fps alloc with
        | error e =>
            rw [hdyn, exceptBind_error] at hall
            exact absurd hall (by simp)
        | ok ra =>
            rw [hdyn, exceptBind_ok] at hall
            simp only [pure, Except.pure, Except.ok.injEq] at hall
            obtain ⟨hlen, hrange⟩ :=
              dynamicPass_ok_range pa (releaseKeys endpoint.ports) fps alloc ra.1 ra.2
                (by rw [hdyn])
            intro i hi hi' hz hm
            have hports : prop.Ports = ra.1 := by
              rw [← hall]
              rfl
            have hi'' : i < ra.1.length := by
              rw [hports] at hi'
              exact hi'
            have := hrange i hi hi'' hz hm
            have hget : prop.Ports.get ⟨i, hi'⟩ = ra.1.get ⟨i, hi''⟩ :=
              List.get_of_eq hports ⟨i, hi'⟩
            rw [hget]
            exact this

/-- The descriptor awaiting a dynamic port used by the witness for claim C2. -/
def p2 : PortConfig := ⟨"", Protocol.tcp, 80, 0, PublishMode.ingress⟩

/-- The endpoint used by the witness for claim C2. -/
def ep2 : Endpoint := ⟨none, []⟩

/-- The proposal the witness allocation for claim C2 produces. -/
def prop2 : proposal :=
  ⟨some [{ p2 with publishedPort := 30001 }], {⟨Protocol.tcp, 30001⟩}, ∅⟩

/-- Witness for claim C2: allocating one dynamic tcp descriptor from a state
holding only (tcp, 30000) skips the taken port, choosing 30001, which lies in
the dynamic range. -/
theorem dynamic_pass_rules_witness :
    ((DynamicPortStart ≤ 30001 ∧ 30001 ≤ DynamicPortEnd)
      ∧ (⟨Protocol.tcp, 30001⟩ : port) ∉ ({⟨Protocol.tcp, 30000⟩} : Finset port)
      ∧ (⟨Protocol.tcp, 30001⟩ : port) ∉ (∅ : Finset port))
    ∧ ((DynamicPortStart ≤ 30000 ∧ 30000 ≤ DynamicPortEnd)
      ∧ (⟨Protocol.tcp, 30000⟩ : port) ∈ ({⟨Protocol.tcp, 30000⟩} : Finset port)
      ∧ (⟨Protocol.tcp, 30000⟩ : port) ∉ (∅ : Finset port))
    ∧ (DynamicPortStart ≤
          ((prop2.Ports.get ⟨0, by decide⟩).publishedPort) ∧
        (prop2.Ports.get ⟨0, by decide⟩).publishedPort ≤ DynamicPortEnd) := by
  refine ⟨?_, ?_, ?_⟩
  · obtain ⟨h1, h2, h3, -⟩ :=
      dynamic_pass_rules.1 {⟨Protocol.tcp, 30000⟩} ∅ Protocol.tcp 30001 (by decide)
    exact ⟨h1, h2, h3⟩
  · exact dynamic_pass_rules.2.2.1 {⟨Protocol.tcp, 30000⟩} ∅ Protocol.tcp 30000 (by decide)
  · exact dynamic_pass_rules.2.2.2.2 {⟨Protocol.tcp, 30000⟩} ep2 (some ⟨[p2]⟩)
      prop2 [p2] (by decide) (by decide) 0 (by decide) (by decide) (by decide) (by decide)

/-! ### Claim C5 -/

/-- Two distinct positions of the list carry a fixed ingress claim on the
same (protocol, published port) key. -/
def DupFixedClaim (l : List PortConfig) : Prop :=
  ∃ (s t u : List PortConfig) (p q : PortConfig),
    l = s ++ p :: t ++ q :: u ∧
    p.publishedPort ≠ 0 ∧ p.publishMode = PublishMode.ingress ∧
    q.publishedPort ≠ 0 ∧ q.publishMode = PublishMode.ingress ∧
    portKeyOf p = portKeyOf q

/-- A skip in the fixed or dynamic pass happens exactly when the descriptor
has published port 0 or host mode. -/
theorem skip_eq_false (p : PortConfig) (hnz : p.publishedPort ≠ 0)
    (hmode : p.publishMode = PublishMode.ingress) :
    (p.publishedPort == 0 || p.publishMode == PublishMode.host) = false := by
  simp [hnz, hmode]

/-- A non-host publish mode is the ingress mode. -/
theorem not_host_eq_ingress (p : PortConfig) (h : (p.publishMode == PublishMode.host) = false) :
    p.publishMode = PublishMode.ingress := by
  cases hm : p.publishMode
  · rfl
  · rw [hm] at h
    exact absurd h (by simp)

/-- Step 1 errors are always invalidSpec, and only out-of-range descriptors
produce them. -/
theorem buildFinalPorts_error (ep : Endpoint) :
    ∀ (l : List PortConfig) (e : AllocError),
      buildFinalPorts ep l = Except.error e →
      e = AllocError.invalidSpec ∧
        ∃ s ∈ l, masterPortEnd < s.publishedPort ∨ masterPortEnd < s.targetPort := by
  intro l
  induction l with
  | nil =>
      intro e h
      exact absurd h (by simp [buildFinalPorts])
  | cons s rest ih =>
      intro e h
      simp only [buildFinalPorts] at h
      by_cases h1 : s.publishedPort > masterPortEnd
      · rw [if_pos h1] at h
        have he : AllocError.invalidSpec = e := by simpa using h
        exact ⟨he.symm, s, by simp, Or.inl h1⟩
      · rw [if_neg h1] at h
        by_cases h2 : s.targetPort > masterPortEnd
        · rw [if_pos h2] at h
          have he : AllocError.invalidSpec = e := by simpa using h
          exact ⟨he.symm, s, by simp, Or.inr h2⟩
        · rw [if_neg h2] at h
          cases hrest : buildFinalPorts ep rest with
          | error e' =>
              rw [hrest, exceptBind_error] at h
              have he : e' = e := by simpa using h
              obtain ⟨he', q, hq, hbad⟩ := ih e' hrest
              exact ⟨he ▸ he', q, by simp [hq], hbad⟩
          | ok rest' =>
              rw [hrest, exceptBind_ok] at h
              exact absurd h (by simp [pure, Except.pure])

/-- Any out-of-range descriptor makes step 1 fail with invalidSpec, for every
endpoint and before any reservation work. -/
theorem buildFinalPorts_oor (ep : Endpoint) :
    ∀ (l : List PortConfig),
      (∃ s ∈ l, masterPortEnd < s.publishedPort ∨ masterPortEnd < s.targetPort) →
      buildFinalPorts ep l = Except.error AllocError.invalidSpec := by
  intro l
  induction l with
  | nil =>
      rintro ⟨s, hs, -⟩
      exact absurd hs (by simp)
  | cons s rest ih =>
      rintro ⟨q, hq, hbad⟩
      simp only [buildFinalPorts]
      rcases List.mem_cons.mp hq with rfl | hqrest
      · rcases hbad with h1 | h2
        · rw [if_pos h1]
        · by_cases h1 : q.publishedPort > masterPortEnd
          · rw [if_pos h1]
          · rw [if_neg h1, if_pos h2]
      · by_cases h1 : s.publishedPort > masterPortEnd
        · rw [if_pos h1]
        · rw [if_neg h1]
          by_cases h2 : s.targetPort > masterPortEnd
          · rw [if_pos h2]
          · rw [if_neg h2, ih ⟨q, hqrest, hbad⟩, exceptBind_error]

/-- The fixed pass reports invalidSpec only when some descriptor's key was
already in the accumulator or two descriptors of the list claim the same
key. -/
theorem fixedPass_invalidSpec (pa dealloc : Finset port) :
    ∀ (l : List PortConfig) (alloc : Finset port),
      fixedPass pa dealloc l alloc = Except.error AllocError.invalidSpec →
      (∃ p ∈ l, p.publishedPort ≠ 0 ∧ p.publishMode = PublishMode.ingress ∧
        portKeyOf p ∈ alloc)
      ∨ DupFixedClaim l := by
  intro l
  induction l with
  | nil =>
      intro alloc h
      exact absurd h (by simp [fixedPass])
  | cons p rest ih =>
      intro alloc h
      simp only [fixedPass] at h
      by_cases hskip : (p.publishedPort == 0 || p.publishMode == PublishMode.host) = true
      · rw [if_pos hskip] at h
        rcases ih alloc h with ⟨q, hq, hfi⟩ | ⟨s, t, u, p', q', heq, hrest⟩
        · exact Or.inl ⟨q, by simp [hq], hfi⟩
        · exact Or.inr ⟨p :: s, t, u, p', q', by simp [heq], hrest⟩
      · rw [if_neg hskip] at h
        have hnz : p.publishedPort ≠ 0 := by
          intro hz
          simp [hz] at hskip
        have hmode : p.publishMode = PublishMode.ingress := by
          apply not_host_eq_ingress
          cases hb : (p.publishMode == PublishMode.host)
          · rfl
          · exact absurd (by simp [hb]) hskip
        by_cases hinuse : portKeyOf p ∈ pa ∧ portKeyOf p ∉ dealloc
        · rw [if_pos hinuse] at h
          exact AllocError.noConfusion (Except.error.inj h)
        · rw [if_neg hinuse] at h
          by_cases hdup : portKeyOf p ∈ alloc
          · rw [if_pos hdup] at h
            exact Or.inl ⟨p, by simp, hnz, hmode, hdup⟩
          · rw [if_neg hdup] at h
            rcases ih _ h with ⟨q, hq, hqnz, hqmode, hqmem⟩ | ⟨s, t, u, p', q', heq, hrest⟩
            · rcases Finset.mem_insert.mp hqmem with hkey | halloc
              · obtain ⟨s', t', hsplit⟩ := List.append_of_mem hq
                exact Or.inr ⟨[], s', t', p, q, by simp [hsplit], hnz, hmode,
                  hqnz, hqmode, hkey.symm⟩
              · exact Or.inl ⟨q, by simp [hq], hqnz, hqmode, halloc⟩
            · exact Or.inr ⟨p :: s, t, u, p', q', by simp [heq], hrest⟩

/-- The dynamic pass can only fail with resourceExhausted. -/
theorem dynamicPass_error (pa dealloc : Finset port) :
    ∀ (l : List PortConfig) (alloc : Finset port) (e : AllocError),
      dynamicPass pa dealloc l alloc = Except.error e →
      e = AllocError.resourceExhausted := by
  intro l
  induction l with
  | nil =>
      intro alloc e h
      exact absurd h (by simp [dynamicPass])
  | cons p rest ih =>
      intro alloc e h
      simp only [dynamicPass] at h
      have hbindcase : ∀ (alloc₂ : Finset port) (f : List PortConfig × Finset port →
          List PortConfig × Finset port),
          (dynamicPass pa dealloc rest alloc₂ >>= fun ra => pure (f ra)) = Except.error e →
          e = AllocError.resourceExhausted := by
        intro alloc₂ f hb
        cases hrest : dynamicPass pa dealloc rest alloc₂ with
        | error e' =>
            rw [hrest, exceptBind_error] at hb
            have : e' = e := by simpa using hb
            exact this ▸ ih alloc₂ e' hrest
        | ok ra =>
            rw [hrest, exceptBind_ok] at hb
            exact absurd hb (by simp [pure, Except.pure])
      by_cases hskip : (p.publishedPort != 0 || p.publishMode == PublishMode.host) = true
      · rw [if_pos hskip] at h
        exact hbindcase alloc (fun ra => (p :: ra.1, ra.2)) h
      · rw [if_neg hskip] at h
        cases hfind : findDynamicPort pa alloc p.protocol with
        | some i =>
            rw [hfind] at h
            exact hbindcase _ (fun ra => ({ p with publishedPort := i } :: ra.1, ra.2)) h
        | none =>
            rw [hfind] at h
            cases hfall : findFallback dealloc alloc p.protocol with
            | some i =>
                rw [hfall] at h
                exact hbindcase _ (fun ra => ({ p with publishedPort := i } :: ra.1, ra.2)) h
            | none =>
                rw [hfall] at h
                exact (by simpa using h : AllocError.resourceExhausted = e).symm

/-- Under no in-use conflicts, a duplicate claim reaching the fixed pass
forces the invalidSpec error. -/
theorem fixedPass_dup_error (pa dealloc : Finset port) :
    ∀ (l : List PortConfig) (alloc : Finset port),
      (∀ p ∈ l, p.publishedPort ≠ 0 → p.publishMode = PublishMode.ingress →
        ¬(portKeyOf p ∈ pa ∧ portKeyOf p ∉ dealloc)) →
      ((∃ p ∈ l, p.publishedPort ≠ 0 ∧ p.publishMode = PublishMode.ingress ∧
          portKeyOf p ∈ alloc)
        ∨ DupFixedClaim l) →
      fixedPass pa dealloc l alloc = Except.error AllocError.invalidSpec := by
  intro l
  induction l with
  | nil =>
      intro alloc hniu hdisj
      rcases hdisj with ⟨p, hp, -⟩ | ⟨s, t, u, p, q, heq, -⟩
      · exact absurd hp (by simp)
      · exact absurd heq (by simp)
  | cons p rest ih =>
      intro alloc hniu hdisj
      simp only [fixedPass]
      by_cases hskip : (p.publishedPort == 0 || p.publishMode == PublishMode.host) = true
      · rw [if_pos hskip]
        have hpnofi : ¬ (p.publishedPort ≠ 0 ∧ p.publishMode = PublishMode.ingress) := by
          rintro ⟨hnz, hmode⟩
          rw [skip_eq_false p hnz hmode] at hskip
          exact absurd hskip (by simp)
        apply ih alloc (fun q hq => hniu q (by simp [hq]))
        rcases hdisj with ⟨q, hq, hqnz, hqmode, hqmem⟩ | ⟨s, t, u, p', q', heq, hfi⟩
        · rcases List.mem_cons.mp hq with rfl | hqrest
          · exact absurd ⟨hqnz, hqmode⟩ hpnofi
          · exact Or.inl ⟨q, hqrest, hqnz, hqmode, hqmem⟩
        · cases s with
          | nil =>
              rw [List.nil_append] at heq
              injection heq with hpp hrest2
              subst hpp
              exact absurd ⟨hfi.1, hfi.2.1⟩ hpnofi
          | cons a s' =>
              rw [List.cons_append] at heq
              injection heq with hap hrest2
              exact Or.inr ⟨s', t, u, p', q', hrest2, hfi⟩
      · rw [if_neg hskip]
        have hnz : p.publishedPort ≠ 0 := by
          intro hz
          simp [hz] at hskip
        have hmode : p.publishMode = PublishMode.ingress := by
          apply not_host_eq_ingress
          cases hb : (p.publishMode == PublishMode.host)
          · rfl
          · exact absurd (by simp [hb]) hskip
        rw [if_neg (hniu p (by simp) hnz hmode)]
        by_cases hdup : portKeyOf p ∈ alloc
        · rw [if_pos hdup]
        · rw [if_neg hdup]
          apply ih _ (fun q hq => hniu q (by simp [hq]))
          rcases hdisj with ⟨q, hq, hqnz, hqmode, hqmem⟩ | ⟨s, t, u, p', q', heq, hfi⟩
          · rcases List.mem_cons.mp hq with rfl | hqrest
            · exact absurd hqmem hdup
            · exact Or.inl ⟨q, hqrest, hqnz, hqmode,
                Finset.mem_insert_of_mem hqmem⟩
          · cases s with
            | nil =>
                rw [List.nil_append] at heq
                injection heq with hpp hrest2
                refine Or.inl ⟨q', ?_, hfi.2.2.1, hfi.2.2.2.1, ?_⟩
                · rw [hrest2]
                  simp
                · rw [← hfi.2.2.2.2, ← hpp]
                  exact Finset.mem_insert_self _ _
            | cons a s' =>
                rw [List.cons_append] at heq
                injection heq with hap hrest2
                exact Or.inr ⟨s', t, u, p', q', hrest2, hfi⟩

/-- The first fixed descriptor of the claim C5 counterexample: its key
(tcp, 80) conflicts with the allocator state. -/
def f80 : PortConfig := ⟨"a", Protocol.tcp, 1, 80, PublishMode.ingress⟩

/-- The duplicated fixed descriptor of the claim C5 counterexample. -/
def f90 : PortConfig := ⟨"b", Protocol.tcp, 1, 90, PublishMode.ingress⟩

/-- The allocator state of the claim C5 counterexample, holding (tcp, 80). -/
def pa5 : Finset port := {⟨Protocol.tcp, 80⟩}

/-- Claim C5 counterexample: the spec [f80, f90, f90] contains two
descriptors claiming the same key (tcp, 90) and no out-of-range port, so per
the claim the call should fail with InvalidSpec; but the earlier descriptor
f80 conflicts with the reserved key (tcp, 80), and the code reports
ResourceInUse instead, refuting the exactly-when. -/
theorem invalidSpec_counterexample :
    Allocate pa5 ⟨none, []⟩ (some ⟨[f80, f90, f90]⟩)
      = Except.error AllocError.resourceInUse
    ∧ f80.publishedPort ≤ masterPortEnd ∧ f80.targetPort ≤ masterPortEnd
    ∧ f90.publishedPort ≤ masterPortEnd ∧ f90.targetPort ≤ masterPortEnd
    ∧ f90.publishedPort ≠ 0 ∧ f90.publishMode = PublishMode.ingress := by
  refine ⟨by decide, by decide, by decide, by decide, by decide, by decide, by decide⟩

/-- Claim C5 (amended): Allocate returns InvalidSpec only when some spec
descriptor's published or target port is out of range, or two post-recovery
result descriptors with a non-zero published port and ingress mode claim the
same key; an out-of-range descriptor always yields InvalidSpec, for every
allocator state and hence before any reservation work; and a duplicate claim
yields InvalidSpec provided no descriptor's fixed port is reserved in the
state outside the release set (otherwise ResourceInUse may preempt it, as
the counterexample shows). -/
theorem invalidSpec_characterization :
    (∀ (pa : Finset port) (ep : Endpoint) (spec? : Option EndpointSpec),
        Allocate pa ep spec? = Except.error AllocError.invalidSpec →
        (∃ s ∈ (spec?.getD ⟨[]⟩).ports,
          masterPortEnd < s.publishedPort ∨ masterPortEnd < s.targetPort)
        ∨ ∃ fps, buildFinalPorts ep (spec?.getD ⟨[]⟩).ports = Except.ok fps ∧
            DupFixedClaim fps)
    ∧ (∀ (pa : Finset port) (ep : Endpoint) (spec? : Option EndpointSpec),
        (∃ s ∈ (spec?.getD ⟨[]⟩).ports,
          masterPortEnd < s.publishedPort ∨ masterPortEnd < s.targetPort) →
        Allocate pa ep spec? = Except.error AllocError.invalidSpec)
    ∧ (∀ (pa : Finset port) (ep : Endpoint) (spec? : Option EndpointSpec)
        (fps : List PortConfig),
        buildFinalPorts ep (spec?.getD ⟨[]⟩).ports = Except.ok fps →
        (∀ p ∈ fps, p.publishedPort ≠ 0 → p.publishMode = PublishMode.ingress →
          ¬(portKeyOf p ∈ pa ∧ portKeyOf p ∉ releaseKeys ep.ports)) →
        DupFixedClaim fps →
        Allocate pa ep spec? = Except.error AllocError.invalidSpec) := by
  refine ⟨?_, ?_, ?_⟩
  · intro pa ep spec? hall
    rw [Allocate_eq] at hall
    cases hbuild : buildFinalPorts ep ((spec?.getD ⟨[]⟩).ports) with
    | error e =>
        obtain ⟨-, hoor⟩ := buildFinalPorts_error ep _ e hbuild
        exact Or.inl hoor
    | ok fps =>
        rw [hbuild, exceptBind_ok] at hall
        cases hfix : fixedPass pa (releaseKeys ep.ports) fps ∅ with
        | error e =>
            rw [hfix, exceptBind_error] at hall
            have he : e = AllocError.invalidSpec := by simpa using hall
            rcases fixedPass_invalidSpec pa (releaseKeys ep.ports) fps ∅
                (he ▸ hfix) with ⟨p, -, -, -, hmem⟩ | hdup
            · exact absurd hmem (by simp)
            · exact Or.inr ⟨fps, rfl, hdup⟩
        | ok alloc =>
            rw [hfix, exceptBind_ok] at hall
            cases hdyn : dynamicPass pa (releaseKeys ep.ports) fps alloc with
            | error e =>
                rw [hdyn, exceptBind_error] at hall
                have he : e = AllocError.invalidSpec := by simpa using hall
                have := dynamicPass_error pa (releaseKeys ep.ports) fps alloc e hdyn
                rw [he] at this
                exact absurd this (by simp)
            | ok ra =>
                rw [hdyn, exceptBind_ok] at hall
                exact absurd hall (by simp [pure, Except.pure])
  · intro pa ep spec? hoor
    rw [Allocate_eq, buildFinalPorts_oor ep _ hoor, exceptBind_error]
  · intro pa ep spec? fps hbuild hniu hdup
    rw [Allocate_eq, hbuild, exceptBind_ok,
      fixedPass_dup_error pa (releaseKeys ep.ports) fps ∅ hniu (Or.inr hdup),
      exceptBind_error]

/-- The out-of-range descriptor of the claim C5 witness. -/
def oor5 : PortConfig := ⟨"", Protocol.tcp, 0, 65536, PublishMode.ingress⟩

/-- Witness for the amended claim C5: a published port 65536 yields
InvalidSpec against any state, and the duplicate pair [f90, f90] with no
in-use conflict yields InvalidSpec. -/
theorem invalidSpec_characterization_witness :
    ((∃ s ∈ [oor5], masterPortEnd < s.publishedPort ∨ masterPortEnd < s.targetPort)
      ∨ ∃ fps, buildFinalPorts ⟨none, []⟩ [oor5] = Except.ok fps ∧ DupFixedClaim fps)
    ∧ Allocate ∅ ⟨none, []⟩ (some ⟨[oor5]⟩) = Except.error AllocError.invalidSpec
    ∧ Allocate ∅ ⟨none, []⟩ (some ⟨[f90, f90]⟩) = Except.error AllocError.invalidSpec := by
  refine ⟨?_, ?_, ?_⟩
  · exact invalidSpec_characterization.1 ∅ ⟨none, []⟩ (some ⟨[oor5]⟩) (by decide)
  · exact invalidSpec_characterization.2.1 ∅ ⟨none, []⟩ (some ⟨[oor5]⟩)
      ⟨oor5, by decide, Or.inl (by decide)⟩
  · exact invalidSpec_characterization.2.2 ∅ ⟨none, []⟩ (some ⟨[f90, f90]⟩)
      [f90, f90] (by decide) (by decide)
      ⟨[], [], [], f90, f90, rfl, by decide, by decide, by decide, by decide, by decide⟩

/-! ### Claim C9 -/

/-- Mostly-equal on present descriptors unfolds to field agreement. -/
theorem PME_iff (a b : PortConfig) :
    PortsMostlyEqual (some a) (some b) = true ↔
      a.name = b.name ∧ a.targetPort = b.targetPort ∧
        a.protocol = b.protocol ∧ a.publishMode = b.publishMode := by
  simp [PortsMostlyEqual, Bool.and_eq_true, beq_iff_eq, and_assoc]

/-- Mostly-equal is symmetric. -/
theorem PME_symm (a b : PortConfig)
    (h : PortsMostlyEqual (some a) (some b) = true) :
    PortsMostlyEqual (some b) (some a) = true := by
  rw [PME_iff] at h ⊢
  obtain ⟨h1, h2, h3, h4⟩ := h
  exact ⟨h1.symm, h2.symm, h3.symm, h4.symm⟩

/-- Mostly-equal is transitive. -/
theorem PME_trans (a b c : PortConfig)
    (h1 : PortsMostlyEqual (some a) (some b) = true)
    (h2 : PortsMostlyEqual (some b) (some c) = true) :
    PortsMostlyEqual (some a) (some c) = true := by
  rw [PME_iff] at h1 h2 ⊢
  exact ⟨h1.1.trans h2.1, h1.2.1.trans h2.2.1, h1.2.2.1.trans h2.2.2.1,
    h1.2.2.2.trans h2.2.2.2⟩

/-- Recovery only ever rewrites the published port; the other fields are kept. -/
theorem recoverOne_fields (ep : Endpoint) (s : PortConfig) :
    (recoverOne ep s).name = s.name ∧ (recoverOne ep s).targetPort = s.targetPort ∧
      (recoverOne ep s).protocol = s.protocol ∧
      (recoverOne ep s).publishMode = s.publishMode := by
  unfold recoverOne
  split
  · exact ⟨rfl, rfl, rfl, rfl⟩
  · split
    · exact ⟨rfl, rfl, rfl, rfl⟩
    · split
      · exact ⟨rfl, rfl, rfl, rfl⟩
      · split
        · split
          · exact ⟨rfl, rfl, rfl, rfl⟩
          · exact ⟨rfl, rfl, rfl, rfl⟩
        · exact ⟨rfl, rfl, rfl, rfl⟩

/-- A user-fixed descriptor is not touched by recovery. -/
theorem recoverOne_of_nz (ep : Endpoint) (s : PortConfig)
    (h : s.publishedPort ≠ 0) : recoverOne ep s = s := by
  unfold recoverOne
  by_cases hh : (s.publishMode == PublishMode.host) = true
  · rw [if_pos hh]
  · rw [if_neg hh, if_pos (by simp [h])]

/-- A host-mode descriptor is not touched by recovery. -/
theorem recoverOne_of_host (ep : Endpoint) (s : PortConfig)
    (h : s.publishMode = PublishMode.host) : recoverOne ep s = s := by
  unfold recoverOne
  rw [if_pos (by simp [h])]

/-- When the spec is valid, step 1 succeeds and is the pointwise recovery. -/
theorem buildFinalPorts_ok_of_valid (ep : Endpoint) :
    ∀ (l : List PortConfig),
      (∀ s ∈ l, s.publishedPort ≤ masterPortEnd ∧ s.targetPort ≤ masterPortEnd) →
      buildFinalPorts ep l = Except.ok (l.map (recoverOne ep)) := by
  intro l
  induction l with
  | nil => intro _; rfl
  | cons s rest ih =>
      intro hval
      obtain ⟨h1, h2⟩ := hval s (by simp)
      simp only [buildFinalPorts]
      rw [if_neg (by omega), if_neg (by omega),
        ih fun q hq => hval q (by simp [hq]), exceptBind_ok]
      rfl

/-- Under the stable-endpoint hypotheses, a realized port mostly equal to the
i-th spec descriptor can only be the i-th realized port. -/
theorem mostlyEqual_unique
    (ep : Endpoint) (S : EndpointSpec)
    (hlen : ep.ports.length = S.ports.length)
    (hme : ∀ i (hi : i < S.ports.length) (hi' : i < ep.ports.length),
      PortsMostlyEqual (some (S.ports.get ⟨i, hi⟩)) (some (ep.ports.get ⟨i, hi'⟩)) = true)
    (hdist : ∀ i (hi : i < S.ports.length) j (hj : j < S.ports.length),
      PortsMostlyEqual (some (S.ports.get ⟨i, hi⟩)) (some (S.ports.get ⟨j, hj⟩)) = true →
      i = j)
    (i : Nat) (hi : i < S.ports.length) (hi' : i < ep.ports.length)
    (p : PortConfig) (hp : p ∈ ep.ports)
    (hpe : PortsMostlyEqual (some (S.ports.get ⟨i, hi⟩)) (some p) = true) :
    p = ep.ports.get ⟨i, hi'⟩ := by
  obtain ⟨⟨j, hj⟩, hpj⟩ := List.mem_iff_get.mp hp
  have hj' : j < S.ports.length := hlen ▸ hj
  have h1 := hme j hj' hj
  have h2 : PortsMostlyEqual (some (S.ports.get ⟨i, hi⟩))
      (some (S.ports.get ⟨j, hj'⟩)) = true := by
    apply PME_trans _ p
    · exact hpe
    · rw [hpj] at h1
      exact PME_symm _ _ h1
  have hij : i = j := hdist i hi j hj' h2
  rw [← hpj]
  subst hij
  rfl

/-- Under the stable-endpoint hypotheses, recovery of the i-th spec
descriptor, when it awaits a dynamic port, copies the i-th realized port's
published port. -/
theorem recoverOne_dyn
    (ep : Endpoint) (S : EndpointSpec) (hspec : ep.spec = some S)
    (hlen : ep.ports.length = S.ports.length)
    (hme : ∀ i (hi : i < S.ports.length) (hi' : i < ep.ports.length),
      PortsMostlyEqual (some (S.ports.get ⟨i, hi⟩)) (some (ep.ports.get ⟨i, hi'⟩)) = true)
    (hdist : ∀ i (hi : i < S.ports.length) j (hj : j < S.ports.length),
      PortsMostlyEqual (some (S.ports.get ⟨i, hi⟩)) (some (S.ports.get ⟨j, hj⟩)) = true →
      i = j)
    (i : Nat) (hi : i < S.ports.length) (hi' : i < ep.ports.length)
    (hing : (S.ports.get ⟨i, hi⟩).publishMode = PublishMode.ingress)
    (hz : (S.ports.get ⟨i, hi⟩).publishedPort = 0) :
    recoverOne ep (S.ports.get ⟨i, hi⟩)
      = { S.ports.get ⟨i, hi⟩ with
          publishedPort := (ep.ports.get ⟨i, hi'⟩).publishedPort } := by
  have hrw : recoverOne ep (S.ports.get ⟨i, hi⟩) =
      (if S.ports.any (fun old => portsEqual old (S.ports.get ⟨i, hi⟩)) then
        match (ep.ports.filter fun p =>
            PortsMostlyEqual (some (S.ports.get ⟨i, hi⟩)) (some p)).getLast? with
        | some p => { S.ports.get ⟨i, hi⟩ with publishedPort := p.publishedPort }
        | none => S.ports.get ⟨i, hi⟩
      else S.ports.get ⟨i, hi⟩) := by
    unfold recoverOne
    rw [if_neg (by rw [hing]; decide), if_neg (by rw [hz]; decide), hspec]
  have hany : (S.ports.any fun old => portsEqual old (S.ports.get ⟨i, hi⟩)) = true :=
    List.any_eq_true.mpr ⟨S.ports.get ⟨i, hi⟩, List.get_mem _ _ _,
      portsEqual_refl _⟩
  rw [hrw, if_pos hany]
  have hmemfil : ep.ports.get ⟨i, hi'⟩ ∈ ep.ports.filter fun p =>
      PortsMostlyEqual (some (S.ports.get ⟨i, hi⟩)) (some p) :=
    List.mem_filter.mpr ⟨List.get_mem _ _ _, hme i hi hi'⟩
  have hne : (ep.ports.filter fun p =>
      PortsMostlyEqual (some (S.ports.get ⟨i, hi⟩)) (some p)) ≠ [] :=
    List.ne_nil_of_mem hmemfil
  obtain ⟨p, hp⟩ := Option.isSome_iff_exists.mp (List.getLast?_isSome.mpr hne)
  rw [hp]
  have hpfil := List.mem_of_mem_getLast? hp
  obtain ⟨hpmem, hpe⟩ := List.mem_filter.mp hpfil
  rw [mostlyEqual_unique ep S hlen hme hdist i hi hi' p hpmem hpe]

/-- The fixed pass succeeds when every fixed ingress key is being released by
this proposal, is not already claimed, and no two descriptors claim the same
key. -/
theorem fixedPass_ok_of_released (pa dealloc : Finset port) :
    ∀ (l : List PortConfig) (alloc : Finset port),
      (∀ p ∈ l, p.publishedPort ≠ 0 → p.publishMode ≠ PublishMode.host →
        portKeyOf p ∈ dealloc) →
      (∀ p ∈ l, p.publishedPort ≠ 0 → p.publishMode ≠ PublishMode.host →
        portKeyOf p ∉ alloc) →
      l.Pairwise (fun p q => p.publishedPort ≠ 0 → p.publishMode ≠ PublishMode.host →
        q.publishedPort ≠ 0 → q.publishMode ≠ PublishMode.host →
        portKeyOf p ≠ portKeyOf q) →
      ∃ A, fixedPass pa dealloc l alloc = Except.ok A := by
  intro l
  induction l with
  | nil =>
      intro alloc _ _ _
      exact ⟨alloc, rfl⟩
  | cons p rest ih =>
      intro alloc hrel halloc hpair
      rw [List.pairwise_cons] at hpair
      obtain ⟨hhead, htail⟩ := hpair
      simp only [fixedPass]
      by_cases hskip : (p.publishedPort == 0 || p.publishMode == PublishMode.host) = true
      · rw [if_pos hskip]
        exact ih alloc (fun q hq => hrel q (by simp [hq]))
          (fun q hq => halloc q (by simp [hq])) htail
      · rw [if_neg hskip]
        have hnz : p.publishedPort ≠ 0 := by
          intro hc
          simp [hc] at hskip
        have hnh : p.publishMode ≠ PublishMode.host := by
          intro hc
          simp [hc] at hskip
        have hd : portKeyOf p ∈ dealloc := hrel p (by simp) hnz hnh
        rw [if_neg (by rintro ⟨-, hc⟩; exact hc hd),
          if_neg (halloc p (by simp) hnz hnh)]
        apply ih
        · exact fun q hq => hrel q (by simp [hq])
        · intro q hq hqnz hqnh
          rw [Finset.mem_insert, not_or]
          exact ⟨Ne.symm (hhead q hq hnz hnh hqnz hqnh),
            halloc q (by simp [hq]) hqnz hqnh⟩
        · exact htail

/-- The dynamic pass is the identity when no descriptor awaits a dynamic
port. -/
theorem dynamicPass_id (pa dealloc : Finset port) :
    ∀ (l : List PortConfig) (alloc : Finset port),
      (∀ p ∈ l, p.publishedPort ≠ 0 ∨ p.publishMode = PublishMode.host) →
      dynamicPass pa dealloc l alloc = Except.ok (l, alloc) := by
  intro l
  induction l with
  | nil => intro alloc _; rfl
  | cons p rest ih =>
      intro alloc hl
      have hskip : (p.publishedPort != 0 || p.publishMode == PublishMode.host) = true := by
        rcases hl p (by simp) with h | h <;> simp [h]
      simp only [dynamicPass]
      rw [if_pos hskip, ih alloc (fun q hq => hl q (by simp [hq])), exceptBind_ok]
      rfl

/-- Claim C9 (amended): for an endpoint whose realized ports were produced by
this same spec — their lengths agree, the i-th realized port is mostly equal
to the i-th spec descriptor, ingress realized ports carry a non-zero
published port matching any user-fixed request, realized ingress keys are
pairwise distinct — and whose spec descriptors are pairwise not mostly equal
(the amendment the counterexample forces) and in range, a second Allocate
with the unchanged spec succeeds against any allocator state, and every
ingress result descriptor carries the same published port as the realized
port, preserving previously assigned dynamic ports. -/
theorem allocate_unchanged_spec_stable
    (pa : Finset port) (ep : Endpoint) (S : EndpointSpec)
    (hspec : ep.spec = some S)
    (hlen : ep.ports.length = S.ports.length)
    (hme : ∀ i (hi : i < S.ports.length) (hi' : i < ep.ports.length),
      PortsMostlyEqual (some (S.ports.get ⟨i, hi⟩)) (some (ep.ports.get ⟨i, hi'⟩)) = true)
    (hdist : ∀ i (hi : i < S.ports.length) j (hj : j < S.ports.length),
      PortsMostlyEqual (some (S.ports.get ⟨i, hi⟩)) (some (S.ports.get ⟨j, hj⟩)) = true →
      i = j)
    (hnz : ∀ i (hi : i < S.ports.length) (hi' : i < ep.ports.length),
      (S.ports.get ⟨i, hi⟩).publishMode = PublishMode.ingress →
      (ep.ports.get ⟨i, hi'⟩).publishedPort ≠ 0)
    (hfix : ∀ i (hi : i < S.ports.length) (hi' : i < ep.ports.length),
      (S.ports.get ⟨i, hi⟩).publishedPort ≠ 0 →
      (ep.ports.get ⟨i, hi'⟩).publishedPort = (S.ports.get ⟨i, hi⟩).publishedPort)
    (hkeys : ∀ i (hi : i < ep.ports.length) j (hj : j < ep.ports.length),
      (ep.ports.get ⟨i, hi⟩).publishMode ≠ PublishMode.host →
      (ep.ports.get ⟨j, hj⟩).publishMode ≠ PublishMode.host →
      portKeyOf (ep.ports.get ⟨i, hi⟩) = portKeyOf (ep.ports.get ⟨j, hj⟩) → i = j)
    (hval : ∀ s ∈ S.ports,
      s.publishedPort ≤ masterPortEnd ∧ s.targetPort ≤ masterPortEnd) :
    ∃ prop : proposal,
      Allocate pa ep (some S) = Except.ok prop ∧
      prop.Ports.length = S.ports.length ∧
      ∀ i (hi : i < S.ports.length) (hi' : i < ep.ports.length)
        (hi'' : i < prop.Ports.length),
        (S.ports.get ⟨i, hi⟩).publishMode = PublishMode.ingress →
        (prop.Ports.get ⟨i, hi''⟩).publishedPort
          = (ep.ports.get ⟨i, hi'⟩).publishedPort := by
  have hres : ∀ i (hi : i < S.ports.length) (hi' : i < ep.ports.length),
      (S.ports.get ⟨i, hi⟩).publishMode = PublishMode.ingress →
      (recoverOne ep (S.ports.get ⟨i, hi⟩)).publishedPort
          = (ep.ports.get ⟨i, hi'⟩).publishedPort
        ∧ portKeyOf (recoverOne ep (S.ports.get ⟨i, hi⟩))
          = portKeyOf (ep.ports.get ⟨i, hi'⟩) := by
    intro i hi hi' hing
    have hproto : (S.ports.get ⟨i, hi⟩).protocol = (ep.ports.get ⟨i, hi'⟩).protocol :=
      ((PME_iff _ _).mp (hme i hi hi')).2.2.1
    by_cases hz : (S.ports.get ⟨i, hi⟩).publishedPort = 0
    · rw [recoverOne_dyn ep S hspec hlen hme hdist i hi hi' hing hz]
      refine ⟨rfl, ?_⟩
      show (⟨(S.ports.get ⟨i, hi⟩).protocol,
        (ep.ports.get ⟨i, hi'⟩).publishedPort⟩ : port) = _
      rw [hproto]
      rfl
    · rw [recoverOne_of_nz ep _ hz]
      have hpub := hfix i hi hi' hz
      refine ⟨hpub.symm, ?_⟩
      show (⟨(S.ports.get ⟨i, hi⟩).protocol,
        (S.ports.get ⟨i, hi⟩).publishedPort⟩ : port) = _
      rw [hproto, ← hpub]
      rfl
  have hmode : ∀ i (hi : i < S.ports.length),
      (recoverOne ep (S.ports.get ⟨i, hi⟩)).publishMode
        = (S.ports.get ⟨i, hi⟩).publishMode :=
    fun i hi => (recoverOne_fields ep _).2.2.2
  have hepmode : ∀ i (hi : i < S.ports.length) (hi' : i < ep.ports.length),
      (ep.ports.get ⟨i, hi'⟩).publishMode = (S.ports.get ⟨i, hi⟩).publishMode :=
    fun i hi hi' => (((PME_iff _ _).mp (hme i hi hi')).2.2.2).symm
  have hbuild : buildFinalPorts ep S.ports = Except.ok (S.ports.map (recoverOne ep)) :=
    buildFinalPorts_ok_of_valid ep S.ports hval
  have hmaplen : (S.ports.map (recoverOne ep)).length = S.ports.length :=
    List.length_map _ _
  have hmapget : ∀ i (hm : i < (S.ports.map (recoverOne ep)).length)
      (hi : i < S.ports.length),
      (S.ports.map (recoverOne ep)).get ⟨i, hm⟩ = recoverOne ep (S.ports.get ⟨i, hi⟩) :=
    fun i hm hi => by simp only [List.get_eq_getElem, List.getElem_map]
  have hmem_char : ∀ p, p ∈ S.ports.map (recoverOne ep) →
      ∃ i, ∃ hi : i < S.ports.length, p = recoverOne ep (S.ports.get ⟨i, hi⟩) := by
    intro p hp
    obtain ⟨⟨i, hm⟩, hpi⟩ := List.mem_iff_get.mp hp
    have hi : i < S.ports.length := by
      rw [hmaplen] at hm
      exact hm
    exact ⟨i, hi, by rw [← hpi, hmapget i hm hi]⟩
  have hrel : ∀ p ∈ S.ports.map (recoverOne ep), p.publishedPort ≠ 0 →
      p.publishMode ≠ PublishMode.host → portKeyOf p ∈ releaseKeys ep.ports := by
    intro p hp hpnz hpnh
    obtain ⟨i, hi, rfl⟩ := hmem_char p hp
    have hi' : i < ep.ports.length := by omega
    have hing : (S.ports.get ⟨i, hi⟩).publishMode = PublishMode.ingress := by
      rw [hmode i hi] at hpnh
      cases hm : (S.ports.get ⟨i, hi⟩).publishMode
      · rfl
      · exact absurd hm hpnh
    obtain ⟨-, hkey⟩ := hres i hi hi' hing
    rw [hkey]
    refine (mem_releaseKeys _ _).mpr ⟨ep.ports.get ⟨i, hi'⟩,
      List.get_mem _ _ _, ?_, rfl⟩
    rw [hepmode i hi hi', hing]
    intro hc
    exact PublishMode.noConfusion hc
  have hpairwise : (S.ports.map (recoverOne ep)).Pairwise
      (fun p q => p.publishedPort ≠ 0 → p.publishMode ≠ PublishMode.host →
        q.publishedPort ≠ 0 → q.publishMode ≠ PublishMode.host →
        portKeyOf p ≠ portKeyOf q) := by
    rw [List.pairwise_iff_get]
    intro a b hab hanz hanh hbnz hbnh
    obtain ⟨i, hma⟩ := a
    obtain ⟨j, hmb⟩ := b
    have hi : i < S.ports.length := by omega
    have hj : j < S.ports.length := by omega
    have hi' : i < ep.ports.length := by omega
    have hj' : j < ep.ports.length := by omega
    rw [hmapget i hma hi] at hanz hanh ⊢
    rw [hmapget j hmb hj] at hbnz hbnh ⊢
    have hingi : (S.ports.get ⟨i, hi⟩).publishMode = PublishMode.ingress := by
      rw [hmode i hi] at hanh
      cases hm : (S.ports.get ⟨i, hi⟩).publishMode
      · rfl
      · exact absurd hm hanh
    have hingj : (S.ports.get ⟨j, hj⟩).publishMode = PublishMode.ingress := by
      rw [hmode j hj] at hbnh
      cases hm : (S.ports.get ⟨j, hj⟩).publishMode
      · rfl
      · exact absurd hm hbnh
    obtain ⟨-, hkeyi⟩ := hres i hi hi' hingi
    obtain ⟨-, hkeyj⟩ := hres j hj hj' hingj
    rw [hkeyi, hkeyj]
    intro hc
    have hij : i = j := by
      apply hkeys i hi' j hj'
      · rw [hepmode i hi hi', hingi]
        intro hk
        exact PublishMode.noConfusion hk
      · rw [hepmode j hj hj', hingj]
        intro hk
        exact PublishMode.noConfusion hk
      · exact hc
    have : i < j := hab
    omega
  obtain ⟨A, hfixok⟩ := fixedPass_ok_of_released pa (releaseKeys ep.ports)
    (S.ports.map (recoverOne ep)) ∅ hrel (by intro p hp h1 h2; exact Finset.not_mem_empty _)
    hpairwise
  have hdynid : dynamicPass pa (releaseKeys ep.ports) (S.ports.map (recoverOne ep)) A
      = Except.ok (S.ports.map (recoverOne ep), A) := by
    apply dynamicPass_id
    intro p hp
    obtain ⟨i, hi, rfl⟩ := hmem_char p hp
    have hi' : i < ep.ports.length := by omega
    cases hm : (S.ports.get ⟨i, hi⟩).publishMode
    · obtain ⟨hpub, -⟩ := hres i hi hi' hm
      rw [hpub]
      exact Or.inl (hnz i hi hi' hm)
    · exact Or.inr (by rw [hmode i hi, hm])
  refine ⟨⟨some (S.ports.map (recoverOne ep)), A, releaseKeys ep.ports⟩, ?_, ?_, ?_⟩
  · rw [Allocate_eq]
    show (buildFinalPorts ep S.ports >>= _) = _
    rw [hbuild, exceptBind_ok, hfixok, exceptBind_ok, hdynid, exceptBind_ok]
    rfl
  · exact hmaplen
  · intro i hi hi' hi'' hing
    have hget : (⟨some (S.ports.map (recoverOne ep)), A,
        releaseKeys ep.ports⟩ : proposal).Ports.get ⟨i, hi''⟩
        = recoverOne ep (S.ports.get ⟨i, hi⟩) := hmapget i hi'' hi
    rw [hget]
    exact (hres i hi hi' hing).1

/-- The dynamic descriptor duplicated in the claim C9 counterexample spec. -/
def s9 : PortConfig := ⟨"", Protocol.tcp, 80, 0, PublishMode.ingress⟩

/-- The claim C9 counterexample spec: two identical dynamic descriptors. -/
def spec9 : EndpointSpec := ⟨[s9, s9]⟩

/-- The first realized port the first allocation produces. -/
def p9a : PortConfig := { s9 with publishedPort := 30000 }

/-- The second realized port the first allocation produces. -/
def p9b : PortConfig := { s9 with publishedPort := 30001 }

/-- The endpoint after the first allocation: realized ports and stored spec. -/
def ep9 : Endpoint := ⟨some spec9, [p9a, p9b]⟩

/-- The allocator state after committing the first allocation. -/
def pa9 : Finset port := {⟨Protocol.tcp, 30000⟩, ⟨Protocol.tcp, 30001⟩}

/-- The proposal the first allocation of the claim C9 counterexample returns
(the reserve set written in the insertion order the dynamic pass produces). -/
def prop9 : proposal :=
  ⟨some [p9a, p9b],
    insert (⟨Protocol.tcp, 30001⟩ : port) (insert (⟨Protocol.tcp, 30000⟩ : port) ∅),
    releaseKeys []⟩

/-- Claim C9 counterexample: allocating the spec with two identical dynamic
descriptors assigns 30000 and 30001; after committing and storing the spec
and ports on the endpoint, re-allocating the exact same spec fails with
InvalidSpec instead of succeeding — the recovery step copies the last
mostly-equal realized port (30001) into both result slots, and the fixed
pass rejects the duplicate — refuting the claim for endpoints whose spec
contains mostly-equal duplicate descriptors. -/
theorem allocate_twice_counterexample :
    Allocate ∅ ⟨none, []⟩ (some spec9) = Except.ok prop9
    ∧ prop9.Commit ∅ = pa9
    ∧ Allocate pa9 ep9 (some spec9) = Except.error AllocError.invalidSpec := by
  refine ⟨rfl, by decide, by decide⟩

/-- The single-descriptor spec of the claim C9 witness. -/
def S9w : EndpointSpec := ⟨[⟨"", Protocol.tcp, 80, 0, PublishMode.ingress⟩]⟩

/-- The endpoint of the claim C9 witness: the dynamic port 31000 was
previously assigned and the spec stored. -/
def ep9w : Endpoint := ⟨some S9w, [⟨"", Protocol.tcp, 80, 31000, PublishMode.ingress⟩]⟩

/-- The proposal the witness re-allocation for claim C9 produces. -/
def prop9w : proposal :=
  ⟨some [⟨"", Protocol.tcp, 80, 31000, PublishMode.ingress⟩],
    insert (⟨Protocol.tcp, 31000⟩ : port) ∅,
    releaseKeys ep9w.ports⟩

/-- Witness for the amended claim C9: re-allocating the unchanged
single-descriptor spec against a state holding the previously assigned key
(tcp, 31000) succeeds and the result slot keeps its realized published
port 31000. -/
theorem allocate_unchanged_spec_stable_witness :
    Allocate {⟨Protocol.tcp, 31000⟩} ep9w (some S9w) = Except.ok prop9w
    ∧ (prop9w.Ports.get ⟨0, by decide⟩).publishedPort
        = (ep9w.ports.get ⟨0, by decide⟩).publishedPort := by
  obtain ⟨prop, h1, h2, h3⟩ :=
    allocate_unchanged_spec_stable {⟨Protocol.tcp, 31000⟩} ep9w S9w rfl (by decide)
      (by decide) (by decide) (by decide) (by decide) (by decide) (by decide)
  have h1' : Allocate {⟨Protocol.tcp, 31000⟩} ep9w (some S9w) = Except.ok prop9w := rfl
  have hprop : prop = prop9w := by
    rw [h1] at h1'
    exact Except.ok.inj h1'
  subst hprop
  exact ⟨h1, h3 0 (by decide) (by decide) (by decide) (by decide)⟩

end SwarmkitPort
